import Mathlib

/-
Verification of the per-partition export tuple stream buffer
(src/ee/storage/TupleStreamWrapper.cpp).

The embedding models the stream state (USO accounting, the commit tracker,
the buffer chain of a current block plus a pending queue) and every public
operation of the wrapper.  Byte contents are not modelled; blocks carry
their framing metadata (starting uso, offset, capacity, generation id,
signature, end-of-stream flag), which is all the verified claims speak
about.  Handoff to the top end (`pushExportBuffer`) is modelled as an
emitted `Event`; fatal exceptions are modelled with `Except Err`.
-/

namespace TupleStream

/-- numeric_limits of int64_t min, the sentinel generation of the source. -/
def INT64_MIN : Int := -(2 ^ 63)

/-- const int METADATA_COL_CNT = 6 from the source. -/
def METADATA_COL_CNT : Nat := 6

/-- const int MAX_BUFFER_AGE = 4000 from the source. -/
def MAX_BUFFER_AGE : Int := 4000

/-- Modelled from the spec: StreamBlock (the header StreamBlock.h is not in
src/).  Identity fields `uso` (starting uso) and `capacity`; mutable
`offset`, `generationId`, `signature`, `endOfStream` (section 4.1 of the
spec).  The raw byte pointer is not modelled. -/
structure StreamBlock where
  uso : Nat
  offset : Nat
  capacity : Nat
  generationId : Int
  signature : String
  endOfStream : Bool
deriving Repr, DecidableEq

/-- Modelled from the spec: truncate_to(mark) sets offset = max(0, mark - starting_uso)
(spec section 4.1); Nat subtraction is exactly that max. -/
def StreamBlock.truncateTo (b : StreamBlock) (mark : Nat) : StreamBlock :=
  { b with offset := mark - b.uso }

/-- Modelled from the spec: consumed(n) advances offset by n and is fatal if
the offset would exceed the capacity (spec section 4.1). -/
def StreamBlock.consumed (b : StreamBlock) (n : Nat) : Option StreamBlock :=
  if b.capacity < b.offset + n then none
  else some { b with offset := b.offset + n }

/-- The external tuple collaborator (spec section 6): a value count, the
max-export-serialized-size estimate (0 means corrupt), and the number of
payload bytes its export serialization actually writes. -/
structure TableTuple where
  sizeInValues : Nat
  maxExportSerializationSize : Nat
  exportBytes : Nat
deriving Repr, DecidableEq

/-- One call of the top end sink `pushExportBuffer(generationId, partitionId,
signature, block-or-null, sync, endOfStream)`.  `data` is `some (uso, offset)`
when the block's bytes are handed over and `none` for the null data handle of
an end-of-stream notification. -/
structure Event where
  generationId : Int
  partitionId : Int
  signature : String
  data : Option (Nat × Nat)
  sync : Bool
  endOfStream : Bool
deriving Repr, DecidableEq

/-- Fatal conditions of the wrapper.  `nullDereference` models the undefined
behaviour of reading `m_currBlock` when it is NULL. -/
inductive Err where
  | txnMovingBackwards
  | truncatingTheFuture
  | capacityTooSmall
  | reconfigureAfterUse
  | corruptTuple
  | blockOverflow
  | nullDereference
  | assertFailed
deriving Repr, DecidableEq

/-- The fields of TupleStreamWrapper.  `allocations` is a ghost counter of the
buffer allocations performed by extendBufferChain (one `new char[...]` each);
it changes nothing else and makes allocation behaviour observable. -/
structure State where
  partitionId : Int
  siteId : Int
  lastFlush : Int
  defaultCapacity : Nat
  uso : Nat
  currBlock : Option StreamBlock
  pendingBlocks : List StreamBlock
  openTransactionId : Int
  openTransactionUso : Nat
  committedTransactionId : Int
  committedUso : Nat
  signature : String
  generation : Int
  prevBlockGeneration : Int
  allocations : Nat
deriving Repr, DecidableEq

/-- pushExportBlock: a block with data is handed to the top end; an empty
end-of-stream block is delivered as a null data handle; an empty ordinary
block is dropped silently. -/
def pushExportBlock (partitionId : Int) (sb : StreamBlock) : List Event :=
  if 0 < sb.offset then
    [{ generationId := sb.generationId, partitionId := partitionId,
       signature := sb.signature, data := some (sb.uso, sb.offset),
       sync := false, endOfStream := sb.endOfStream }]
  else if sb.endOfStream then
    [{ generationId := sb.generationId, partitionId := partitionId,
       signature := sb.signature, data := none,
       sync := false, endOfStream := sb.endOfStream }]
  else []

/-- The end-of-stream injection of drainPendingBlocks: when the front
block's generation moved past `prev` and `prev` is not the sentinel, a
zero-capacity block tagged with `prev`, the stream signature and the
end-of-stream flag is pushed. -/
def drainEosEvents (partitionId : Int) (sig : String) (prev : Int)
    (b : StreamBlock) : List Event :=
  if prev < b.generationId ∧ prev ≠ INT64_MIN then
    pushExportBlock partitionId
      { uso := b.uso, offset := 0, capacity := 0,
        generationId := prev, signature := sig, endOfStream := true }
  else []

/-- The loop of drainPendingBlocks, walking the pending queue front to back.
`prev` is updated even when the walk then stops at a block that is not
fully covered by `committedUso`. -/
def drainLoop (committedUso : Nat) (sig : String) (partitionId : Int) :
    List StreamBlock → Int → List StreamBlock × Int × List Event
  | [], prev => ([], prev, [])
  | b :: rest, prev =>
    if b.uso + b.offset ≤ committedUso then
      let r := drainLoop committedUso sig partitionId rest b.generationId
      (r.1, r.2.1,
        drainEosEvents partitionId sig prev b ++ pushExportBlock partitionId b ++ r.2.2)
    else
      (b :: rest, b.generationId, drainEosEvents partitionId sig prev b)

/-- drainPendingBlocks on the wrapper state. -/
def drainPendingBlocks (s : State) : State × List Event :=
  let r := drainLoop s.committedUso s.signature s.partitionId
             s.pendingBlocks s.prevBlockGeneration
  ({ s with pendingBlocks := r.1, prevBlockGeneration := r.2.1 }, r.2.2)

/-- extendBufferChain: fatal when the default capacity cannot hold minLength;
otherwise the current block (if any) is appended to the pending queue and a
fresh block starting at the current uso is installed, stamped with the
current generation and signature. -/
def extendBufferChain (s : State) (minLength : Nat) : Except Err State :=
  if s.defaultCapacity < minLength then .error .capacityTooSmall
  else .ok { s with
    pendingBlocks := s.pendingBlocks ++ s.currBlock.toList,
    currBlock := some { uso := s.uso, offset := 0, capacity := s.defaultCapacity,
                        generationId := s.generation, signature := s.signature,
                        endOfStream := false },
    allocations := s.allocations + 1 }

/-- commit(lastCommittedTxnId, currentTxnId).  The unused `sync` argument of
the source is omitted (the body never reads it). -/
def commit (s : State) (lastCommittedTxnId currentTxnId : Int) : Except Err State :=
  if currentTxnId < s.openTransactionId then .error .txnMovingBackwards
  else if currentTxnId = s.openTransactionId ∧
          lastCommittedTxnId = s.committedTransactionId then .ok s
  else
    let s1 :=
      if s.openTransactionId < currentTxnId then
        { s with committedUso := s.uso,
                 committedTransactionId := s.openTransactionId,
                 openTransactionId := currentTxnId }
      else s
    let s2 :=
      if s1.openTransactionId ≤ lastCommittedTxnId then
        { s1 with committedUso := s1.uso,
                  committedTransactionId := s1.openTransactionId }
      else s1
    .ok s2

/-- Helper of rollbackTo: the source pops blocks off the back of the pending
queue while their uso is at or past the mark; this walks the reversed queue. -/
def rollbackPopBack (mark : Nat) : List StreamBlock → List StreamBlock × Option StreamBlock
  | [] => ([], none)
  | sb :: rest =>
    if mark ≤ sb.uso then rollbackPopBack mark rest
    else (rest, some (sb.truncateTo mark))

/-- rollbackTo(mark): fatal when truncating the future; rewinds uso; truncates
the current block when it contains the mark, otherwise discards it and pops
pending blocks from the back.  The source reads m_currBlock unconditionally,
modelled as `nullDereference` when no current block exists. -/
def rollbackTo (s : State) (mark : Nat) : Except Err State :=
  if s.uso < mark then .error .truncatingTheFuture
  else
    match s.currBlock with
    | none => .error .nullDereference
    | some c =>
      if ¬ mark ≤ c.uso then
        .ok { s with uso := mark, currBlock := some (c.truncateTo mark) }
      else
        let r := rollbackPopBack mark s.pendingBlocks.reverse
        .ok { s with uso := mark, pendingBlocks := r.1.reverse, currBlock := r.2 }

/-- cleanupManagedBuffers: discards the current block and every pending block. -/
def cleanupManagedBuffers (s : State) : State :=
  { s with currBlock := none, pendingBlocks := [] }

/-- setDefaultCapacity: only callable before the wrapper is used; resets the
chain with the new capacity.  The source's `assert(capacity > 0)` is modelled
as a fatal condition. -/
def setDefaultCapacity (s : State) (capacity : Nat) : Except Err State :=
  if capacity = 0 then .error .assertFailed
  else if s.uso ≠ 0 ∨ s.openTransactionId ≠ 0 ∨
          s.openTransactionUso ≠ 0 ∨ s.committedTransactionId ≠ 0 then
    .error .reconfigureAfterUse
  else
    extendBufferChain { cleanupManagedBuffers s with defaultCapacity := capacity } capacity

/-- setSignatureAndGeneration: quiesces the previous generation (commit,
extend, drain) when a non-sentinel generation advances, then records the new
signature and generation.  The source's asserts are modelled as fatal. -/
def setSignatureAndGeneration (s : State) (signature : String) (generation : Int) :
    Except Err (State × List Event) :=
  if ¬ s.generation < generation then .error .assertFailed
  else if ¬ (signature = s.signature ∨ s.signature = "") then .error .assertFailed
  else if generation ≠ s.generation ∧ s.generation ≠ INT64_MIN then do
    let s1 ← commit s generation generation
    let s2 ← extendBufferChain s1 0
    let d := drainPendingBlocks s2
    .ok ({ d.1 with signature := signature, generation := generation }, d.2)
  else
    .ok ({ s with signature := signature, generation := generation }, [])

/-- sizeof int64_t, the width of one ExportSerializeOutput.writeLong. -/
def writeLongBytes : Nat := 8

/-- The metadata budget of computeOffsets: 5 int64 plus one byte
(the source comment says "5 int64_ts plus CHAR(1)"). -/
def metadataSize : Nat := 8 * 5 + 1

/-- The metadata bytes appendTuple actually serializes: six writeLong calls
(txnId, timestamp, seqNo, partitionId, siteId, operation tag). -/
def metadataBytesWritten : Nat := METADATA_COL_CNT * writeLongBytes

/-- computeOffsets: returns (rowHeaderSz, tupleMaxLength); fatal on a corrupt
tuple (max serialization size 0).  The C bit-rounding form
((columnCount + 7) & -8) >> 3 equals (columnCount + 7) / 8 on naturals. -/
def computeOffsets (tuple : TableTuple) : Except Err (Nat × Nat) :=
  let columnCount := tuple.sizeInValues + METADATA_COL_CNT
  let nullMaskLength := (columnCount + 7) / 8
  let rowHeaderSz := 4 + nullMaskLength
  let dataSz := tuple.maxExportSerializationSize
  if dataSz = 0 then .error .corruptTuple
  else .ok (rowHeaderSz, rowHeaderSz + metadataSize + dataSz)

/-- appendTuple, generation phase: if the supplied generation id is newer,
advance the generation and extend the chain. -/
def appendGenerationPhase (s : State) (generationId : Int) : Except Err State :=
  if s.generation < generationId then
    extendBufferChain { s with generation := generationId } s.defaultCapacity
  else .ok s

/-- appendTuple: extend when no current block exists (possible after a
rollback that discarded it). -/
def appendEnsureCurrentPhase (s : State) : Except Err State :=
  match s.currBlock with
  | none => extendBufferChain s s.defaultCapacity
  | some _ => .ok s

/-- appendTuple, capacity phase: when the current block cannot hold the
maximum tuple size, seal it and allocate a fresh one.  rawLength() of the
source block is its bytes-consumed offset (spec section 4.4 step 6). -/
def appendCapacityPhase (s : State) (tupleMaxLength : Nat) : Except Err State :=
  match s.currBlock with
  | none => .error .nullDereference
  | some c =>
    if s.defaultCapacity < c.offset + tupleMaxLength then
      extendBufferChain s tupleMaxLength
    else .ok s

/-- appendTuple, write phase: stamp a fresh block with the current generation
and signature, serialize the row header, six metadata int64s and the tuple
payload, and advance the block offset and uso by the consumed bytes.
Returns the new state and the uso snapshot taken before the advance. -/
def appendWritePhase (s : State) (rowHeaderSz : Nat) (tuple : TableTuple) :
    Except Err (State × Nat) :=
  match s.currBlock with
  | none => .error .nullDereference
  | some c0 =>
    let c1 := if c0.offset = 0 then
        { c0 with generationId := s.generation, signature := s.signature }
      else c0
    let ioPosition := metadataBytesWritten + tuple.exportBytes
    match c1.consumed (rowHeaderSz + ioPosition) with
    | none => .error .blockOverflow
    | some c2 =>
      .ok ({ s with currBlock := some c2,
                    uso := s.uso + (rowHeaderSz + ioPosition) }, s.uso)

/-- appendTuple: commit, compute sizes, possibly extend the chain (generation
advance, missing current block, capacity), drain, then write the row.
Returns the state, the rollback token (uso before the call) and the events
pushed to the sink. -/
def appendTuple (s : State) (lastCommittedTxnId txnId seqNo timestamp generationId : Int)
    (tuple : TableTuple) (isInsert : Bool) : Except Err (State × Nat × List Event) :=
  if txnId < s.openTransactionId then .error .txnMovingBackwards
  else do
    let s1 ← commit s lastCommittedTxnId txnId
    let offs ← computeOffsets tuple
    let s2 ← appendGenerationPhase s1 generationId
    let s3 ← appendEnsureCurrentPhase s2
    let s4 ← appendCapacityPhase s3 offs.2
    let d := drainPendingBlocks s4
    let w ← appendWritePhase d.1 offs.1 tuple
    .ok (w.1, w.2, d.2)

/-- periodicFlush: mandatory when timeInMillis is negative, otherwise only
when the buffer aged past MAX_BUFFER_AGE.  When triggered it seals the
current block, commits with the larger of currentTxnId and the open txn,
and drains. -/
def periodicFlush (s : State) (timeInMillis lastCommittedTxnId currentTxnId : Int) :
    Except Err (State × List Event) :=
  if timeInMillis < 0 ∨ MAX_BUFFER_AGE < timeInMillis - s.lastFlush then do
    let s0 := if 0 < timeInMillis then { s with lastFlush := timeInMillis } else s
    let txnId := if currentTxnId < s0.openTransactionId then s0.openTransactionId
                 else currentTxnId
    let s1 ← extendBufferChain s0 0
    let s2 ← commit s1 lastCommittedTxnId txnId
    let d := drainPendingBlocks s2
    .ok (d.1, d.2)
  else .ok (s, [])

/-- The constructor: zeroed counters, sentinel generations, and one initial
extendBufferChain(defaultCapacity) installing an empty current block. -/
def initState (partitionId siteId : Int) (bufferSize : Nat) : State :=
  { partitionId := partitionId, siteId := siteId, lastFlush := 0,
    defaultCapacity := bufferSize, uso := 0,
    currBlock := some { uso := 0, offset := 0, capacity := bufferSize,
                        generationId := INT64_MIN, signature := "",
                        endOfStream := false },
    pendingBlocks := [],
    openTransactionId := 0, openTransactionUso := 0,
    committedTransactionId := 0, committedUso := 0,
    signature := "", generation := INT64_MIN,
    prevBlockGeneration := INT64_MIN, allocations := 1 }

/-- The public operations of the wrapper, for quantifying over operation
sequences. -/
inductive Op where
  | append (lastCommittedTxnId txnId seqNo timestamp generationId : Int)
      (tuple : TableTuple) (isInsert : Bool)
  | flush (timeInMillis lastCommittedTxnId currentTxnId : Int)
  | rollback (mark : Nat)
  | setSigGen (signature : String) (generation : Int)
  | setDefCap (capacity : Nat)
  | cleanup
deriving Repr

/-- Run one operation; the rollback token of append is not part of the
observable state-and-events view. -/
def applyOp (s : State) : Op → Except Err (State × List Event)
  | .append last txn seq ts gen tuple ins =>
    (appendTuple s last txn seq ts gen tuple ins).map (fun r => (r.1, r.2.2))
  | .flush t last current => periodicFlush s t last current
  | .rollback mark => (rollbackTo s mark).map (fun s' => (s', []))
  | .setSigGen sig gen => setSignatureAndGeneration s sig gen
  | .setDefCap cap => (setDefaultCapacity s cap).map (fun s' => (s', []))
  | .cleanup => .ok (cleanupManagedBuffers s, [])

/-- Run a sequence of operations, concatenating the emitted events. -/
def run (s : State) : List Op → Except Err (State × List Event)
  | [] => .ok (s, [])
  | op :: ops => do
    let r1 ← applyOp s op
    let r2 ← run r1.1 ops
    .ok (r2.1, r1.2 ++ r2.2)

/-- States reachable from a fresh stream by arbitrary operation sequences. -/
inductive Reachable : State → Prop where
  | init (partitionId siteId : Int) (bufferSize : Nat) :
      Reachable (initState partitionId siteId bufferSize)
  | step {s : State} {op : Op} {s' : State} {evs : List Event} :
      Reachable s → applyOp s op = .ok (s', evs) → Reachable s'

/-- States reachable when every rollback respects the spec's caller
discipline (section 5): rollback_to is called before any commit advanced
committed_uso past the mark. -/
inductive ReachableD : State → Prop where
  | init (partitionId siteId : Int) (bufferSize : Nat) :
      ReachableD (initState partitionId siteId bufferSize)
  | step {s : State} {op : Op} {s' : State} {evs : List Event} :
      ReachableD s → applyOp s op = .ok (s', evs) →
      (∀ mark, op = .rollback mark → s.committedUso ≤ mark) → ReachableD s'

/-- An event carries data bytes (the sink received a real block). -/
def isDataEvt (e : Event) : Bool := e.data.isSome

/-- An event is an end-of-stream notification. -/
def isEosEvt (e : Event) : Bool := e.endOfStream

/-- Ordering facts relating two sink events, the earlier one first: an
end-of-stream generation lies strictly below every later event's
generation, and a data block's generation never exceeds the generation of
any later event. -/
def evtOrd (a b : Event) : Prop :=
  (isEosEvt a → isEosEvt b → a.generationId < b.generationId) ∧
  (isEosEvt a → isDataEvt b → a.generationId < b.generationId) ∧
  (isDataEvt a → isEosEvt b → a.generationId ≤ b.generationId) ∧
  (isDataEvt a → isDataEvt b → a.generationId ≤ b.generationId)

/-- Structural invariant of the buffer chain and generation bookkeeping,
preserved by every operation: pending generations are sorted and bounded by
the current block's generation and the stream generation, the drain cursor
`prevBlockGeneration` sits below everything still queued, no queued block
carries the end-of-stream flag, and all generations are at least the
sentinel. -/
structure StateInv (s : State) : Prop where
  sorted : s.pendingBlocks.Pairwise (fun a b => a.generationId ≤ b.generationId)
  prevLePending : ∀ b ∈ s.pendingBlocks, s.prevBlockGeneration ≤ b.generationId
  pendingLeCurr : ∀ b ∈ s.pendingBlocks, ∀ c, s.currBlock = some c →
    b.generationId ≤ c.generationId
  currLeGen : ∀ c, s.currBlock = some c → c.generationId ≤ s.generation
  pendingLeGen : ∀ b ∈ s.pendingBlocks, b.generationId ≤ s.generation
  prevLeGen : s.prevBlockGeneration ≤ s.generation
  prevLeCurr : ∀ c, s.currBlock = some c → s.prevBlockGeneration ≤ c.generationId
  noEosPending : ∀ b ∈ s.pendingBlocks, b.endOfStream = false
  noEosCurr : ∀ c, s.currBlock = some c → c.endOfStream = false
  sentinelPrev : INT64_MIN ≤ s.prevBlockGeneration
  sentinelGen : INT64_MIN ≤ s.generation

/-- Trace invariant tying the events emitted so far to the drain cursor:
pairwise generation ordering, every end-of-stream generation lies strictly
below the cursor and above the sentinel with a null data handle, every data
generation lies at or below the cursor, and a data block whose generation
the cursor has moved past is followed by the end-of-stream marker of its
generation. -/
structure TraceInv (evs : List Event) (s : State) : Prop where
  ord : evs.Pairwise evtOrd
  eosFacts : ∀ e ∈ evs, isEosEvt e →
    e.generationId < s.prevBlockGeneration ∧ INT64_MIN < e.generationId ∧ e.data = none
  dataFacts : ∀ e ∈ evs, isDataEvt e →
    e.generationId ≤ s.prevBlockGeneration ∧ e.endOfStream = false
  eosExists : ∀ g, INT64_MIN < g → g < s.prevBlockGeneration →
    (∃ e ∈ evs, isDataEvt e ∧ e.generationId = g) →
    ∃ e ∈ evs, isEosEvt e ∧ e.generationId = g

/-- Preconditions of the drain loop, established by the chain invariant:
sorted pending generations all at or above the cursor, no end-of-stream
flags queued, and a cursor at or above the sentinel. -/
def DrainPre (blocks : List StreamBlock) (prev : Int) : Prop :=
  blocks.Pairwise (fun a b => a.generationId ≤ b.generationId) ∧
  (∀ b ∈ blocks, prev ≤ b.generationId) ∧
  (∀ b ∈ blocks, b.endOfStream = false) ∧
  INT64_MIN ≤ prev

/-- Modelled from the spec: the claimed two-step commit protocol, written
from the words of the specification (section 4.3) for comparison with the
source's `commit`. -/
def commitSpecTwoStep (s : State) (lastCommittedTxnId currentTxnId : Int) :
    Except Err State :=
  if currentTxnId < s.openTransactionId then .error .txnMovingBackwards
  else if currentTxnId = s.openTransactionId ∧
          lastCommittedTxnId = s.committedTransactionId then .ok s
  else
    let stepA :=
      if s.openTransactionId < currentTxnId then
        { s with committedUso := s.uso,
                 committedTransactionId := s.openTransactionId,
                 openTransactionId := currentTxnId }
      else s
    let stepB :=
      if stepA.openTransactionId ≤ lastCommittedTxnId then
        { stepA with committedUso := stepA.uso,
                     committedTransactionId := stepA.openTransactionId }
      else stepA
    .ok stepB

/-- Modelled from the spec: appendTuple with its three named steps in the
claimed order, the commit tracker first, then the chain extensions, then the
drainer, then the row write. -/
def appendTupleSpecOrder (s : State)
    (lastCommittedTxnId txnId seqNo timestamp generationId : Int)
    (tuple : TableTuple) (isInsert : Bool) : Except Err (State × Nat × List Event) :=
  if txnId < s.openTransactionId then .error .txnMovingBackwards
  else do
    let s1 ← commit s lastCommittedTxnId txnId
    let offs ← computeOffsets tuple
    let s2 ← appendGenerationPhase s1 generationId
    let s3 ← appendEnsureCurrentPhase s2
    let s4 ← appendCapacityPhase s3 offs.2
    let d := drainPendingBlocks s4
    let w ← appendWritePhase d.1 offs.1 tuple
    .ok (w.1, w.2, d.2)

/-- Modelled from the spec: periodicFlush with the commit tracker advanced
first, the chain extended second and the drainer run last (the source
instead extends the chain before calling commit). -/
def periodicFlushSpecOrder (s : State)
    (timeInMillis lastCommittedTxnId currentTxnId : Int) :
    Except Err (State × List Event) :=
  if timeInMillis < 0 ∨ MAX_BUFFER_AGE < timeInMillis - s.lastFlush then do
    let s0 := if 0 < timeInMillis then { s with lastFlush := timeInMillis } else s
    let txnId := if currentTxnId < s0.openTransactionId then s0.openTransactionId
                 else currentTxnId
    let s1 ← commit s0 lastCommittedTxnId txnId
    let s2 ← extendBufferChain s1 0
    let d := drainPendingBlocks s2
    .ok (d.1, d.2)
  else .ok (s, [])

/-- A small well-formed tuple used in concrete executions: one payload
column, max export size 10, actual export payload 8 bytes. -/
def exTuple : TableTuple := { sizeInValues := 1, maxExportSerializationSize := 10,
                              exportBytes := 8 }

/-- A fresh stream of partition 0, site 0, default capacity 1024. -/
def exInit : State := initState 0 0 1024

/-- The fresh stream after its current block was discarded by a rollback. -/
def exNoCurr : State := { exInit with currBlock := none }

/-- Operation sequence whose rollback violates the caller discipline: two
appends of distinct transactions (the second commit moves committed_uso to
61) followed by rollback_to(0). -/
def exC5ops : List Op :=
  [.append 5 5 1 1000 5 exTuple true,
   .append 5 6 2 1001 5 exTuple true,
   .rollback 0]

/-- The state reached by exC5ops: committed_uso = 61 while uso = 0. -/
def exC5state : State :=
  { partitionId := 0, siteId := 0, lastFlush := 0, defaultCapacity := 1024,
    uso := 0, currBlock := none, pendingBlocks := [],
    openTransactionId := 6, openTransactionUso := 0,
    committedTransactionId := 5, committedUso := 61,
    signature := "", generation := 5,
    prevBlockGeneration := INT64_MIN, allocations := 2 }

/-- The table signature used in the generation scenarios. -/
def exSig : String := "t"

/-- Operation sequence that makes the sink's very first delivery an
end-of-stream marker: empty blocks of generations up to 5 are drained and
dropped silently (advancing the cursor), then generation 7 arrives. -/
def exC3ops : List Op :=
  [.setSigGen exSig 5, .flush (-1) 0 0, .flush (-1) 0 0,
   .setSigGen exSig 7, .flush (-1) 0 0, .flush (-1) 0 0]

/-- The single event produced by exC3ops: an end-of-stream marker of
generation 5 delivered before any data block. -/
def exC3event : Event :=
  { generationId := 5, partitionId := 0, signature := exSig, data := none,
    sync := false, endOfStream := true }

/-- The state reached by exC3ops. -/
def exC3state : State :=
  { partitionId := 0, siteId := 0, lastFlush := 0, defaultCapacity := 1024,
    uso := 0,
    currBlock := some { uso := 0, offset := 0, capacity := 1024,
                        generationId := 7, signature := exSig,
                        endOfStream := false },
    pendingBlocks := [],
    openTransactionId := 7, openTransactionUso := 0,
    committedTransactionId := 7, committedUso := 0,
    signature := exSig, generation := 7,
    prevBlockGeneration := 7, allocations := 6 }

/-- Generation-boundary scenario of the spec (section 8, scenario 3): one
row at generation 5, flush, one row at generation 7, flush. -/
def exC3wOps : List Op :=
  [.append 10 11 1 1000 5 exTuple true, .flush (-1) 11 11,
   .append 11 12 2 1001 7 exTuple true, .flush (-1) 12 12]

/-- The generation-5 data block delivered by exC3wOps. -/
def exC3data5 : Event :=
  { generationId := 5, partitionId := 0, signature := "", data := some (0, 61),
    sync := false, endOfStream := false }

/-- The end-of-stream marker of generation 5 delivered by exC3wOps. -/
def exC3eos5 : Event :=
  { generationId := 5, partitionId := 0, signature := "", data := none,
    sync := false, endOfStream := true }

/-- The generation-7 data block delivered by exC3wOps. -/
def exC3data7 : Event :=
  { generationId := 7, partitionId := 0, signature := "", data := some (61, 61),
    sync := false, endOfStream := false }

/-- The state reached by exC3wOps. -/
def exC3wState : State :=
  { partitionId := 0, siteId := 0, lastFlush := 0, defaultCapacity := 1024,
    uso := 122,
    currBlock := some { uso := 122, offset := 0, capacity := 1024,
                        generationId := 7, signature := "",
                        endOfStream := false },
    pendingBlocks := [],
    openTransactionId := 12, openTransactionUso := 0,
    committedTransactionId := 12, committedUso := 122,
    signature := "", generation := 7,
    prevBlockGeneration := 7, allocations := 5 }

/-- A state with one fully committed pending block of 5 bytes, used to
exercise the drainer on a concrete input. -/
def exPendingState : State :=
  { exInit with
    uso := 5, committedUso := 5,
    pendingBlocks := [{ uso := 0, offset := 5, capacity := 16, generationId := 3,
                        signature := "", endOfStream := false }],
    currBlock := some { uso := 5, offset := 0, capacity := 1024,
                        generationId := 3, signature := "", endOfStream := false } }

/-- The state after appending one exTuple row (txn 5, watermark 5,
generation 5) to the fresh stream. -/
def exAppendedState : State :=
  { exInit with
    uso := 61,
    currBlock := some { uso := 0, offset := 61, capacity := 1024,
                        generationId := 5, signature := "", endOfStream := false },
    openTransactionId := 5, committedTransactionId := 5,
    generation := 5, allocations := 2 }

/-- exPendingState after a mandatory flush: the committed pending block was
pushed to the sink and the sealed empty block dropped. -/
def exFlushedState : State :=
  { exInit with
    uso := 5, committedUso := 5,
    currBlock := some { uso := 5, offset := 0, capacity := 1024,
                        generationId := INT64_MIN, signature := "",
                        endOfStream := false },
    prevBlockGeneration := 3, allocations := 2 }

/-- The sink event produced by flushing exPendingState: the 5-byte block of
generation 3 starting at uso 0. -/
def exDataEvent : Event :=
  { generationId := 3, partitionId := 0, signature := "", data := some (0, 5),
    sync := false, endOfStream := false }

/-- A state whose current block holds 5 bytes starting at uso 0, used to
exercise rollback truncation on a concrete input. -/
def exRollState : State :=
  { exInit with
    uso := 5,
    currBlock := some { uso := 0, offset := 5, capacity := 1024,
                        generationId := INT64_MIN, signature := "",
                        endOfStream := false } }

/-- exRollState after rollback_to(3): the current block is truncated to
3 bytes and uso rewinds to the mark. -/
def exRolledState : State :=
  { exRollState with
    uso := 3,
    currBlock := some { uso := 0, offset := 3, capacity := 1024,
                        generationId := INT64_MIN, signature := "",
                        endOfStream := false } }

/-! Helper lemmas. -/

theorem except_bind_ok {α β : Type} {x : Except Err α} {f : α → Except Err β} {b : β}
    (h : bind x f = .ok b) : ∃ a, x = .ok a ∧ f a = .ok b := by
  cases x with
  | error e => simp [Bind.bind, Except.bind] at h
  | ok a => exact ⟨a, rfl, by simpa [Bind.bind, Except.bind] using h⟩

theorem commit_ok_unchanged {s s' : State} {last current : Int}
    (h : commit s last current = .ok s') :
    s'.uso = s.uso ∧ s'.currBlock = s.currBlock ∧
    s'.pendingBlocks = s.pendingBlocks ∧ s'.lastFlush = s.lastFlush ∧
    s'.defaultCapacity = s.defaultCapacity ∧ s'.signature = s.signature ∧
    s'.generation = s.generation ∧ s'.prevBlockGeneration = s.prevBlockGeneration ∧
    s'.openTransactionUso = s.openTransactionUso ∧ s'.partitionId = s.partitionId ∧
    s'.siteId = s.siteId ∧ s'.allocations = s.allocations := by
  unfold commit at h
  split at h
  · exact absurd h (by simp)
  · split at h
    · cases h; exact ⟨rfl, rfl, rfl, rfl, rfl, rfl, rfl, rfl, rfl, rfl, rfl, rfl⟩
    · cases h
      split <;> split <;> exact ⟨rfl, rfl, rfl, rfl, rfl, rfl, rfl, rfl, rfl, rfl, rfl, rfl⟩

theorem extend_ok_unchanged {s s' : State} {n : Nat}
    (h : extendBufferChain s n = .ok s') :
    s'.uso = s.uso ∧ s'.committedUso = s.committedUso ∧
    s'.openTransactionId = s.openTransactionId ∧
    s'.committedTransactionId = s.committedTransactionId ∧
    s'.lastFlush = s.lastFlush ∧ s'.defaultCapacity = s.defaultCapacity ∧
    s'.signature = s.signature ∧ s'.generation = s.generation ∧
    s'.prevBlockGeneration = s.prevBlockGeneration ∧
    s'.openTransactionUso = s.openTransactionUso ∧
    s'.partitionId = s.partitionId ∧ s'.siteId = s.siteId := by
  unfold extendBufferChain at h
  split at h
  · exact absurd h (by simp)
  · cases h; exact ⟨rfl, rfl, rfl, rfl, rfl, rfl, rfl, rfl, rfl, rfl, rfl, rfl⟩

theorem drain_fst_fields (s : State) :
    ((drainPendingBlocks s).1.uso = s.uso ∧
     (drainPendingBlocks s).1.committedUso = s.committedUso ∧
     (drainPendingBlocks s).1.openTransactionId = s.openTransactionId ∧
     (drainPendingBlocks s).1.committedTransactionId = s.committedTransactionId ∧
     (drainPendingBlocks s).1.currBlock = s.currBlock ∧
     (drainPendingBlocks s).1.signature = s.signature ∧
     (drainPendingBlocks s).1.generation = s.generation ∧
     (drainPendingBlocks s).1.defaultCapacity = s.defaultCapacity ∧
     (drainPendingBlocks s).1.lastFlush = s.lastFlush ∧
     (drainPendingBlocks s).1.openTransactionUso = s.openTransactionUso ∧
     (drainPendingBlocks s).1.partitionId = s.partitionId ∧
     (drainPendingBlocks s).1.siteId = s.siteId) := by
  unfold drainPendingBlocks
  exact ⟨rfl, rfl, rfl, rfl, rfl, rfl, rfl, rfl, rfl, rfl, rfl, rfl⟩

theorem computeOffsets_ok {tuple : TableTuple} {offs : Nat × Nat}
    (h : computeOffsets tuple = .ok offs) :
    offs.1 = 4 + (tuple.sizeInValues + METADATA_COL_CNT + 7) / 8 ∧
    offs.2 = offs.1 + metadataSize + tuple.maxExportSerializationSize := by
  simp only [computeOffsets] at h
  split at h
  · exact absurd h (by simp)
  · cases h; exact ⟨rfl, rfl⟩

theorem appendWritePhase_ok {s : State} {rh : Nat} {tuple : TableTuple}
    {s' : State} {tok : Nat} (h : appendWritePhase s rh tuple = .ok (s', tok)) :
    tok = s.uso ∧ s'.uso = s.uso + (rh + (metadataBytesWritten + tuple.exportBytes)) ∧
    s'.committedUso = s.committedUso ∧
    s'.openTransactionId = s.openTransactionId ∧
    s'.committedTransactionId = s.committedTransactionId ∧
    s'.pendingBlocks = s.pendingBlocks ∧
    s'.prevBlockGeneration = s.prevBlockGeneration ∧
    s'.signature = s.signature ∧ s'.generation = s.generation := by
  simp only [appendWritePhase] at h
  split at h
  · exact absurd h (by simp)
  · split at h
    · exact absurd h (by simp)
    · simp only [Except.ok.injEq, Prod.mk.injEq] at h
      obtain ⟨hs, ht⟩ := h
      subst hs; subst ht
      exact ⟨rfl, rfl, rfl, rfl, rfl, rfl, rfl, rfl, rfl⟩

/-! Claim C6: the metadata component of the computeOffsets estimate is 41
bytes while appendTuple serializes six 8-byte metadata fields. -/

/-- Claim C6: the claim that the metadata bytes actually serialized by
append_tuple are at most the metadata component of the size estimate is
false on this code: the six writeLong calls emit 48 bytes while
computeOffsets budgets 5*8+1 = 41, so the estimate undercounts by 7. -/
theorem C6_metadata_exceeds_estimate :
    metadataBytesWritten = 48 ∧ metadataSize = 41 ∧
    ¬ metadataBytesWritten ≤ metadataSize := by
  refine ⟨rfl, rfl, ?_⟩
  decide

/-! Claim C8: the aged-flush scenario. -/

/-- Claim C8 counterexample: the first call periodic_flush(now=0) is not
triggered (0 - 0 = 0 is not greater than MAX_BUFFER_AGE = 4000), so contrary
to the claim it does not allocate a new empty current block: the state is
returned unchanged, with no fresh allocation. -/
theorem C8_counterexample :
    ¬ (∀ s1 evs1, periodicFlush exInit 0 0 0 = .ok (s1, evs1) →
        s1.allocations = exInit.allocations + 1) := by
  intro h
  have h1 := h exInit [] (by rfl)
  simp [exInit, initState] at h1

/-- Claim C8 as amended: with no appends, periodic_flush(now=0) is a no-op
(0 - 0 does not exceed MAX_BUFFER_AGE, so nothing is sealed and nothing is
allocated), and periodic_flush(now=4001, last=0, txn=0) is triggered: it
seals the empty current block, allocates exactly one new empty current
block, and the sink receives nothing because empty non-end-of-stream blocks
are dropped silently. -/
theorem C8_amended_aged_flush :
    periodicFlush exInit 0 0 0 = .ok (exInit, []) ∧
    periodicFlush exInit 4001 0 0 =
      .ok ({ exInit with lastFlush := 4001, allocations := 2 }, []) := by
  exact ⟨by rfl, by rfl⟩

/-! Claim C2: the commit protocol. -/

/-- Claim C2: commit(last_committed_txn, current_txn) behaves exactly as the
two-step protocol of the specification (fatal when moving backwards, the
unchanged fast path, step A advancing the open frontier, step B collapsing
to the durable watermark), and it changes no field other than the four
commit-tracker fields. -/
theorem C2_commit_two_step :
    ∀ s last current,
      commit s last current = commitSpecTwoStep s last current ∧
      (∀ s', commit s last current = .ok s' →
        s'.uso = s.uso ∧ s'.currBlock = s.currBlock ∧
        s'.pendingBlocks = s.pendingBlocks ∧ s'.lastFlush = s.lastFlush ∧
        s'.defaultCapacity = s.defaultCapacity ∧ s'.signature = s.signature ∧
        s'.generation = s.generation ∧
        s'.prevBlockGeneration = s.prevBlockGeneration ∧
        s'.openTransactionUso = s.openTransactionUso ∧
        s'.partitionId = s.partitionId ∧ s'.siteId = s.siteId ∧
        s'.allocations = s.allocations) := by
  intro s last current
  exact ⟨rfl, fun s' h => commit_ok_unchanged h⟩

/-- Witness for claim C2 at a concrete input: a commit that advances the
open frontier from 0 to 6 with watermark 5 leaves the chain fields of the
fresh stream untouched. -/
theorem C2_commit_two_step_witness :
    commit exInit 5 6 = commitSpecTwoStep exInit 5 6 ∧
    ({ exInit with openTransactionId := 6 } : State).uso = exInit.uso :=
  ⟨(C2_commit_two_step exInit 5 6).1,
   ((C2_commit_two_step exInit 5 6).2 { exInit with openTransactionId := 6 } (by rfl)).1⟩

theorem appendGenerationPhase_ok {s s' : State} {g : Int}
    (h : appendGenerationPhase s g = .ok s') :
    s'.uso = s.uso ∧ s'.committedUso = s.committedUso ∧
    s'.openTransactionId = s.openTransactionId ∧
    s'.committedTransactionId = s.committedTransactionId ∧
    s'.prevBlockGeneration = s.prevBlockGeneration ∧
    s'.signature = s.signature ∧ s'.defaultCapacity = s.defaultCapacity ∧
    s'.partitionId = s.partitionId := by
  unfold appendGenerationPhase at h
  split at h
  · have := extend_ok_unchanged h
    simp only at this
    tauto
  · cases h; exact ⟨rfl, rfl, rfl, rfl, rfl, rfl, rfl, rfl⟩

theorem appendEnsureCurrentPhase_ok {s s' : State}
    (h : appendEnsureCurrentPhase s = .ok s') :
    s'.uso = s.uso ∧ s'.committedUso = s.committedUso ∧
    s'.openTransactionId = s.openTransactionId ∧
    s'.committedTransactionId = s.committedTransactionId ∧
    s'.prevBlockGeneration = s.prevBlockGeneration ∧
    s'.signature = s.signature ∧ s'.generation = s.generation ∧
    s'.defaultCapacity = s.defaultCapacity ∧ s'.partitionId = s.partitionId := by
  unfold appendEnsureCurrentPhase at h
  split at h
  · have := extend_ok_unchanged h
    tauto
  · cases h; exact ⟨rfl, rfl, rfl, rfl, rfl, rfl, rfl, rfl, rfl⟩

theorem appendCapacityPhase_ok {s s' : State} {n : Nat}
    (h : appendCapacityPhase s n = .ok s') :
    s'.uso = s.uso ∧ s'.committedUso = s.committedUso ∧
    s'.openTransactionId = s.openTransactionId ∧
    s'.committedTransactionId = s.committedTransactionId ∧
    s'.prevBlockGeneration = s.prevBlockGeneration ∧
    s'.signature = s.signature ∧ s'.generation = s.generation ∧
    s'.defaultCapacity = s.defaultCapacity ∧ s'.partitionId = s.partitionId := by
  unfold appendCapacityPhase at h
  split at h
  · exact absurd h (by simp)
  · split at h
    · have := extend_ok_unchanged h
      tauto
    · cases h; exact ⟨rfl, rfl, rfl, rfl, rfl, rfl, rfl, rfl, rfl⟩

/-- Success decomposition of appendTuple: a successful append ran commit on
the initial state, the events are exactly the drain events of the pre-write
state s4 (whose tracker fields are those left by commit), the returned
token is the uso before the call, and uso advances by the consumed row
bytes while the other tracker fields pass through unchanged. -/
theorem appendTuple_ok_shape {s : State} {last txn seq ts gen : Int}
    {tuple : TableTuple} {ins : Bool} {s' : State} {tok : Nat} {evs : List Event}
    (h : appendTuple s last txn seq ts gen tuple ins = .ok (s', tok, evs)) :
    ∃ s1 s4 offs,
      commit s last txn = .ok s1 ∧
      computeOffsets tuple = .ok offs ∧
      evs = (drainPendingBlocks s4).2 ∧
      s4.uso = s.uso ∧ s4.committedUso = s1.committedUso ∧
      s4.openTransactionId = s1.openTransactionId ∧
      s4.committedTransactionId = s1.committedTransactionId ∧
      s'.committedUso = s4.committedUso ∧
      s'.openTransactionId = s4.openTransactionId ∧
      s'.committedTransactionId = s4.committedTransactionId ∧
      tok = s.uso ∧
      s'.uso = s.uso + (offs.1 + (metadataBytesWritten + tuple.exportBytes)) := by
  unfold appendTuple at h
  split at h
  · exact absurd h (by simp)
  · obtain ⟨s1, hc, h⟩ := except_bind_ok h
    obtain ⟨offs, ho, h⟩ := except_bind_ok h
    obtain ⟨s2, hg, h⟩ := except_bind_ok h
    obtain ⟨s3, he, h⟩ := except_bind_ok h
    obtain ⟨s4, hcap, h⟩ := except_bind_ok h
    obtain ⟨w, hw, h⟩ := except_bind_ok h
    simp only [Except.ok.injEq, Prod.mk.injEq] at h
    obtain ⟨hs', htok, hevs⟩ := h
    have h1 := commit_ok_unchanged hc
    have h2 := appendGenerationPhase_ok hg
    have h3 := appendEnsureCurrentPhase_ok he
    have h4 := appendCapacityPhase_ok hcap
    have hd := drain_fst_fields s4
    have h5 := appendWritePhase_ok hw
    have huso4 : s4.uso = s.uso := by
      rw [h4.1, h3.1, h2.1, h1.1]
    refine ⟨s1, s4, offs, hc, ho, by rw [← hevs], huso4, ?_, ?_, ?_, ?_, ?_, ?_, ?_, ?_⟩
    · rw [h4.2.1, h3.2.1, h2.2.1]
    · rw [h4.2.2.1, h3.2.2.1, h2.2.2.1]
    · rw [h4.2.2.2.1, h3.2.2.2.1, h2.2.2.2.1]
    · rw [← hs', h5.2.2.1, hd.2.1]
    · rw [← hs', h5.2.2.2.1, hd.2.2.1]
    · rw [← hs', h5.2.2.2.2.1, hd.2.2.2.1]
    · rw [← htok, h5.1, hd.1, huso4]
    · rw [← hs', h5.2.1, hd.1, huso4]

/-! Claim C9: appendTuple returns the pre-call uso and advances uso by the
row bytes. -/

/-- Claim C9: every successful append_tuple returns the value uso held
immediately before the call (the caller's rollback token), and on return
uso has advanced by exactly row_header_size + bytes_written, where
row_header_size is 4 + ceil((value_count + 6)/8) from computeOffsets and
bytes_written is the serializer position: six 8-byte metadata fields plus
the tuple's export payload. -/
theorem C9_append_rollback_token :
    ∀ s last txn seq ts gen tuple ins s' tok evs,
      appendTuple s last txn seq ts gen tuple ins = .ok (s', tok, evs) →
      tok = s.uso ∧
      s'.uso = s.uso + ((4 + (tuple.sizeInValues + METADATA_COL_CNT + 7) / 8) +
                        (metadataBytesWritten + tuple.exportBytes)) := by
  intro s last txn seq ts gen tuple ins s' tok evs h
  obtain ⟨s1, s4, offs, -, ho, -, -, -, -, -, -, -, -, htok, huso⟩ :=
    appendTuple_ok_shape h
  have hoffs := computeOffsets_ok ho
  exact ⟨htok, by rw [huso, hoffs.1]⟩

/-- Witness for claim C9 at a concrete input: appending one 1-column tuple
to the fresh stream returns token 0 and advances uso to 61 = (4 + 1) +
(48 + 8). -/
theorem C9_append_rollback_token_witness :
    (0 : Nat) = exInit.uso ∧
    (61 : Nat) = exInit.uso + ((4 + (exTuple.sizeInValues + METADATA_COL_CNT + 7) / 8) +
                     (metadataBytesWritten + exTuple.exportBytes)) := by
  have h := C9_append_rollback_token exInit 5 5 1 1000 5 exTuple true
    exAppendedState 0 [] (by rfl)
  exact ⟨h.1, h.2⟩

theorem rollbackPopBack_some {mark : Nat} :
    ∀ {l : List StreamBlock} {rest : List StreamBlock} {b : StreamBlock},
      rollbackPopBack mark l = (rest, some b) → b.uso + b.offset = mark := by
  intro l
  induction l with
  | nil => intro rest b h; simp [rollbackPopBack] at h
  | cons sb tl ih =>
    intro rest b h
    unfold rollbackPopBack at h
    split at h
    · exact ih h
    · rename_i hlt
      simp only [Prod.mk.injEq, Option.some.injEq] at h
      rw [← h.2]
      simp only [StreamBlock.truncateTo]
      omega

theorem rollbackPopBack_none {mark : Nat} :
    ∀ {l : List StreamBlock}, (∀ b ∈ l, mark ≤ b.uso) →
      rollbackPopBack mark l = ([], none) := by
  intro l
  induction l with
  | nil => intro _; rfl
  | cons sb tl ih =>
    intro h
    unfold rollbackPopBack
    rw [if_pos (h sb (by simp))]
    exact ih (fun b hb => h b (by simp [hb]))

/-! Claim C4: the post-rollback invariant. -/

/-- Claim C4 counterexample: the claim that after every rollback_to(mark)
with mark at most uso a current block exists is false at a concrete
reachable input: on the fresh stream, rollback_to(0) discards the current
block (its starting uso 0 is not below the mark) and finds no pending block
below the mark, leaving no current block at all. -/
theorem C4_counterexample :
    ¬ (∀ s mark s', Reachable s → mark ≤ s.uso → rollbackTo s mark = .ok s' →
        ∃ c, s'.currBlock = some c ∧ c.uso + c.offset = s'.uso ∧ s'.uso = mark) := by
  intro h
  obtain ⟨c, hc, -⟩ :=
    h exInit 0 exNoCurr (Reachable.init 0 0 1024) (Nat.zero_le _) (by rfl)
  simp [exNoCurr] at hc

/-- Claim C4 as amended: after every successful rollback_to(mark), uso
equals the mark, and if a current block exists (the source can also leave
none when the mark is at or below every block's starting uso) it satisfies
current.starting_uso + current.offset = uso. -/
theorem C4_amended_rollback_invariant :
    ∀ s mark s', rollbackTo s mark = .ok s' →
      s'.uso = mark ∧ ∀ c, s'.currBlock = some c → c.uso + c.offset = s'.uso := by
  intro s mark s' h
  unfold rollbackTo at h
  split at h
  · exact absurd h (by simp)
  · rename_i hle
    split at h
    · exact absurd h (by simp)
    · rename_i c hc
      split at h
      · rename_i hlt
        cases h
        refine ⟨rfl, fun c' hc' => ?_⟩
        simp only [Option.some.injEq] at hc'
        rw [← hc']
        simp only [StreamBlock.truncateTo]
        omega
      · cases h
        refine ⟨rfl, fun c' hc' => ?_⟩
        simp only at hc'
        exact @rollbackPopBack_some mark s.pendingBlocks.reverse
          (rollbackPopBack mark s.pendingBlocks.reverse).1 c' (by rw [← hc'])

/-- Witness for claim C4 at a concrete input: rolling a 5-byte current
block back to mark 3 truncates it to 3 bytes with uso 3. -/
theorem C4_amended_rollback_invariant_witness :
    exRolledState.uso = 3 ∧ (0 + 3 : Nat) = exRolledState.uso := by
  have h := C4_amended_rollback_invariant exRollState 3 exRolledState (by rfl)
  exact ⟨h.1, h.2 { uso := 0, offset := 3, capacity := 1024,
                    generationId := INT64_MIN, signature := "",
                    endOfStream := false } rfl⟩

/-! Claim C10: rollback requires a current block. -/

/-- Claim C10: rollback_to reads the current block unconditionally.  When
the mark equals the current block's starting uso and no pending block
starts below the mark, the rollback leaves the stream with no current
block; a subsequent rollback_to with a mark not beyond uso then
dereferences the absent current block (modelled as the nullDereference
fatal). -/
theorem C10_rollback_null_deref :
    (∀ s mark c, s.currBlock = some c → mark = c.uso →
      (∀ b ∈ s.pendingBlocks, mark ≤ b.uso) → mark ≤ s.uso →
      rollbackTo s mark = .ok { s with uso := mark, pendingBlocks := [],
                                       currBlock := none }) ∧
    (∀ s mark, s.currBlock = none → mark ≤ s.uso →
      rollbackTo s mark = .error .nullDereference) := by
  constructor
  · intro s mark c hc hmark hpend hle
    have hr : rollbackPopBack mark s.pendingBlocks.reverse = ([], none) :=
      rollbackPopBack_none (fun b hb => hpend b (List.mem_reverse.mp hb))
    unfold rollbackTo
    rw [if_neg (Nat.not_lt.mpr hle), hc]
    dsimp only
    rw [if_neg (not_not_intro (by omega))]
    simp [hr]
  · intro s mark hc hle
    unfold rollbackTo
    rw [if_neg (Nat.not_lt.mpr hle), hc]

/-- Witness for claim C10 at a concrete input: on the fresh stream,
rollback_to(0) leaves no current block, and a second rollback_to(0) hits
the null dereference. -/
theorem C10_rollback_null_deref_witness :
    rollbackTo exInit 0 = .ok exNoCurr ∧
    rollbackTo exNoCurr 0 = .error .nullDereference := by
  have h1 := C10_rollback_null_deref.1 exInit 0
    { uso := 0, offset := 0, capacity := 1024, generationId := INT64_MIN,
      signature := "", endOfStream := false }
    rfl rfl (by simp [exInit, initState]) (Nat.zero_le _)
  have h2 := C10_rollback_null_deref.2 exNoCurr 0 rfl (Nat.zero_le _)
  exact ⟨h1, h2⟩

theorem extendBufferChain_zero_ok (s : State) :
    extendBufferChain s 0 = .ok { s with
      pendingBlocks := s.pendingBlocks ++ s.currBlock.toList,
      currBlock := some { uso := s.uso, offset := 0, capacity := s.defaultCapacity,
                          generationId := s.generation, signature := s.signature,
                          endOfStream := false },
      allocations := s.allocations + 1 } := by
  unfold extendBufferChain
  rw [if_neg (Nat.not_lt_zero _)]

theorem extend_zero_commit_commute (s : State) (l c : Int) :
    bind (extendBufferChain s 0) (fun x => commit x l c) =
    bind (commit s l c) (fun x => extendBufferChain x 0) := by
  by_cases h1 : c < s.openTransactionId <;>
  by_cases h2 : c = s.openTransactionId ∧ l = s.committedTransactionId <;>
  by_cases h3 : s.openTransactionId < c <;>
  by_cases h4 : c ≤ l <;>
  by_cases h5 : s.openTransactionId ≤ l <;>
  simp [commit, extendBufferChain_zero_ok, Bind.bind, Except.bind, h1, h2, h3, h4, h5,
    lt_irrefl, le_refl]

/-! Claim C7: the phase order of the Appender and the Flusher. -/

/-- Claim C7: every append_tuple invocation and every triggered
periodic_flush performs, observably, first the commit-tracker advance, then
the possible chain extensions, then the drain.  append_tuple follows that
order literally; periodic_flush literally extends the chain before calling
commit, but the two steps touch disjoint state and commute, so the flush
equals the specified commit-extend-drain order as well. -/
theorem C7_phase_order :
    (∀ s last txn seq ts gen tuple ins,
      appendTuple s last txn seq ts gen tuple ins =
        appendTupleSpecOrder s last txn seq ts gen tuple ins) ∧
    (∀ s t last current,
      periodicFlush s t last current = periodicFlushSpecOrder s t last current) := by
  constructor
  · intro s last txn seq ts gen tuple ins
    rfl
  · intro s t last current
    unfold periodicFlush periodicFlushSpecOrder
    split
    · rw [← bind_assoc, ← bind_assoc, extend_zero_commit_commute]
    · rfl

theorem except_map_ok {α β : Type} {x : Except Err α} {f : α → β} {b : β}
    (h : x.map f = .ok b) : ∃ a, x = .ok a ∧ f a = b := by
  cases x with
  | error e => simp [Except.map] at h
  | ok a => exact ⟨a, rfl, by simpa [Except.map] using h⟩

theorem pushExportBlock_mem {pid : Int} {sb : StreamBlock} {e : Event}
    (h : e ∈ pushExportBlock pid sb) :
    e.generationId = sb.generationId ∧ e.partitionId = pid ∧
    e.signature = sb.signature ∧ e.sync = false ∧
    e.endOfStream = sb.endOfStream ∧
    ((0 < sb.offset ∧ e.data = some (sb.uso, sb.offset)) ∨
     (sb.offset = 0 ∧ sb.endOfStream = true ∧ e.data = none)) := by
  unfold pushExportBlock at h
  split at h
  · rename_i hoff
    simp only [List.mem_singleton] at h
    subst h
    exact ⟨rfl, rfl, rfl, rfl, rfl, Or.inl ⟨hoff, rfl⟩⟩
  · rename_i hoff
    split at h
    · rename_i heos
      simp only [List.mem_singleton] at h
      subst h
      exact ⟨rfl, rfl, rfl, rfl, rfl, Or.inr ⟨by omega, heos, rfl⟩⟩
    · simp at h

theorem drainEosEvents_mem {pid : Int} {sig : String} {prev : Int}
    {b : StreamBlock} {e : Event} (h : e ∈ drainEosEvents pid sig prev b) :
    e.generationId = prev ∧ e.partitionId = pid ∧ e.signature = sig ∧
    e.data = none ∧ e.endOfStream = true ∧
    prev < b.generationId ∧ prev ≠ INT64_MIN := by
  unfold drainEosEvents at h
  split at h
  · rename_i hcond
    obtain ⟨hg, hp, hs, -, heos, hcase⟩ := pushExportBlock_mem h
    rcases hcase with ⟨h0, -⟩ | ⟨-, -, hnone⟩
    · exact absurd h0 (by simp)
    · exact ⟨hg, hp, hs, hnone, heos, hcond.1, hcond.2⟩
  · simp at h

theorem drainLoop_cons_pos {cU : Nat} {sig : String} {pid : Int}
    {b : StreamBlock} {rest : List StreamBlock} {prev : Int}
    (hcov : b.uso + b.offset ≤ cU) :
    drainLoop cU sig pid (b :: rest) prev =
      ((drainLoop cU sig pid rest b.generationId).1,
       (drainLoop cU sig pid rest b.generationId).2.1,
       drainEosEvents pid sig prev b ++ pushExportBlock pid b ++
         (drainLoop cU sig pid rest b.generationId).2.2) := by
  simp only [drainLoop]
  rw [if_pos hcov]

theorem drainLoop_cons_neg {cU : Nat} {sig : String} {pid : Int}
    {b : StreamBlock} {rest : List StreamBlock} {prev : Int}
    (hcov : ¬ b.uso + b.offset ≤ cU) :
    drainLoop cU sig pid (b :: rest) prev =
      (b :: rest, b.generationId, drainEosEvents pid sig prev b) := by
  simp only [drainLoop]
  rw [if_neg hcov]

theorem drainLoop_data_le (cU : Nat) (sig : String) (pid : Int) :
    ∀ (blocks : List StreamBlock) (prev : Int) (e : Event),
      e ∈ (drainLoop cU sig pid blocks prev).2.2 →
      ∀ u o, e.data = some (u, o) → u + o ≤ cU := by
  intro blocks
  induction blocks with
  | nil => intro prev e he; simp [drainLoop] at he
  | cons b rest ih =>
    intro prev e he u o hdata
    by_cases hcov : b.uso + b.offset ≤ cU
    · rw [drainLoop_cons_pos hcov] at he
      simp only [List.mem_append] at he
      rcases he with (he | he) | he
      · rw [(drainEosEvents_mem he).2.2.2.1] at hdata; cases hdata
      · obtain ⟨-, -, -, -, -, hcase⟩ := pushExportBlock_mem he
        rcases hcase with ⟨-, hsome⟩ | ⟨-, -, hnone⟩
        · rw [hsome] at hdata
          cases hdata
          exact hcov
        · rw [hnone] at hdata; cases hdata
      · exact ih b.generationId e he u o hdata
    · rw [drainLoop_cons_neg hcov] at he
      rw [(drainEosEvents_mem he).2.2.2.1] at hdata; cases hdata

theorem drainLoop_suffix (cU : Nat) (sig : String) (pid : Int) :
    ∀ (blocks : List StreamBlock) (prev : Int),
      ∃ k, (drainLoop cU sig pid blocks prev).1 = blocks.drop k := by
  intro blocks
  induction blocks with
  | nil => intro prev; exact ⟨0, rfl⟩
  | cons b rest ih =>
    intro prev
    by_cases hcov : b.uso + b.offset ≤ cU
    · rw [drainLoop_cons_pos hcov]
      obtain ⟨k, hk⟩ := ih b.generationId
      exact ⟨k + 1, hk⟩
    · rw [drainLoop_cons_neg hcov]
      exact ⟨0, rfl⟩

theorem drainLoop_head_uncovered (cU : Nat) (sig : String) (pid : Int) :
    ∀ (blocks : List StreamBlock) (prev : Int) (b : StreamBlock),
      ((drainLoop cU sig pid blocks prev).1).head? = some b →
      cU < b.uso + b.offset := by
  intro blocks
  induction blocks with
  | nil => intro prev b h; simp [drainLoop] at h
  | cons hd rest ih =>
    intro prev b h
    by_cases hcov : hd.uso + hd.offset ≤ cU
    · rw [drainLoop_cons_pos hcov] at h
      exact ih hd.generationId b h
    · rw [drainLoop_cons_neg hcov] at h
      simp only [List.head?, Option.some.injEq] at h
      rw [← h]
      omega

theorem periodicFlush_ok_shape {s : State} {t last current : Int}
    {s' : State} {evs : List Event}
    (h : periodicFlush s t last current = .ok (s', evs)) :
    (evs = [] ∧ s' = s) ∨
    ∃ s2, evs = (drainPendingBlocks s2).2 ∧ s'.committedUso = s2.committedUso := by
  unfold periodicFlush at h
  split at h
  · obtain ⟨s1, hx, h⟩ := except_bind_ok h
    obtain ⟨s2, hy, h⟩ := except_bind_ok h
    simp only [Except.ok.injEq, Prod.mk.injEq] at h
    refine Or.inr ⟨s2, by rw [← h.2], ?_⟩
    rw [← h.1, (drain_fst_fields s2).2.1]
  · simp only [Except.ok.injEq, Prod.mk.injEq] at h
    exact Or.inl ⟨h.2.symm, h.1.symm⟩

theorem setSigGen_ok_shape {s : State} {sig : String} {gen : Int}
    {s' : State} {evs : List Event}
    (h : setSignatureAndGeneration s sig gen = .ok (s', evs)) :
    evs = [] ∨
    ∃ s2, evs = (drainPendingBlocks s2).2 ∧ s'.committedUso = s2.committedUso := by
  unfold setSignatureAndGeneration at h
  split at h
  · exact absurd h (by simp)
  · split at h
    · exact absurd h (by simp)
    · split at h
      · obtain ⟨s1, hx, h⟩ := except_bind_ok h
        obtain ⟨s2, hy, h⟩ := except_bind_ok h
        simp only [Except.ok.injEq, Prod.mk.injEq] at h
        refine Or.inr ⟨s2, by rw [← h.2], ?_⟩
        rw [← h.1]
        exact (drain_fst_fields s2).2.1
      · simp only [Except.ok.injEq, Prod.mk.injEq] at h
        exact Or.inl h.2.symm

/-! Claim C1: the commit horizon of the drainer. -/

/-- Claim C1: whenever an operation makes the drainer push a data-carrying
block to the sink, the byte range of that block lies at or below the
committed uso the drainer ran with (which no later step of the operation
changes, so it is the committed uso of the resulting state); the drainer
walks the pending queue front to back, removing a prefix, and stops at the
first block not fully covered, so partial commit never releases bytes. -/
theorem C1_commit_horizon :
    (∀ s op s' evs, applyOp s op = .ok (s', evs) →
      ∀ e ∈ evs, ∀ u o, e.data = some (u, o) → u + o ≤ s'.committedUso) ∧
    (∀ s, ∃ k, (drainPendingBlocks s).1.pendingBlocks = s.pendingBlocks.drop k) ∧
    (∀ s b, ((drainPendingBlocks s).1.pendingBlocks).head? = some b →
      s.committedUso < b.uso + b.offset) := by
  refine ⟨?_, ?_, ?_⟩
  · intro s op s' evs h e he u o hdata
    cases op with
    | append last txn seq ts gen tuple ins =>
      simp only [applyOp] at h
      obtain ⟨r, hr, hmap⟩ := except_map_ok h
      injection hmap with h1 h2
      obtain ⟨sc, s4, offs, -, -, hevs, -, -, -, -, hcuso, -, -, -, -⟩ :=
        appendTuple_ok_shape hr
      rw [← h2, hevs] at he
      have := drainLoop_data_le s4.committedUso s4.signature s4.partitionId
        s4.pendingBlocks s4.prevBlockGeneration e he u o hdata
      rw [← h1, hcuso]
      exact this
    | flush t last current =>
      simp only [applyOp] at h
      rcases periodicFlush_ok_shape h with ⟨hevs, -⟩ | ⟨s2, hevs, hcuso⟩
      · rw [hevs] at he; simp at he
      · rw [hevs] at he
        have := drainLoop_data_le s2.committedUso s2.signature s2.partitionId
          s2.pendingBlocks s2.prevBlockGeneration e he u o hdata
        rw [hcuso]
        exact this
    | rollback mark =>
      simp only [applyOp] at h
      obtain ⟨a, -, hmap⟩ := except_map_ok h
      injection hmap with h1 h2
      rw [← h2] at he; simp at he
    | setSigGen sig gen =>
      simp only [applyOp] at h
      rcases setSigGen_ok_shape h with hevs | ⟨s2, hevs, hcuso⟩
      · rw [hevs] at he; simp at he
      · rw [hevs] at he
        have := drainLoop_data_le s2.committedUso s2.signature s2.partitionId
          s2.pendingBlocks s2.prevBlockGeneration e he u o hdata
        rw [hcuso]
        exact this
    | setDefCap cap =>
      simp only [applyOp] at h
      obtain ⟨a, -, hmap⟩ := except_map_ok h
      injection hmap with h1 h2
      rw [← h2] at he; simp at he
    | cleanup =>
      simp only [applyOp, Except.ok.injEq, Prod.mk.injEq] at h
      rw [← h.2] at he; simp at he
  · intro s
    exact drainLoop_suffix s.committedUso s.signature s.partitionId
      s.pendingBlocks s.prevBlockGeneration
  · intro s b h
    exact drainLoop_head_uncovered s.committedUso s.signature s.partitionId
      s.pendingBlocks s.prevBlockGeneration b h

/-- Witness for claim C1 at a concrete input: flushing a state with one
fully committed 5-byte pending block pushes exactly that byte range, within
the committed horizon 5. -/
theorem C1_commit_horizon_witness :
    (0 + 5 : Nat) ≤ exFlushedState.committedUso := by
  have h := C1_commit_horizon.1 exPendingState (.flush (-1) 0 0)
    exFlushedState [exDataEvent] (by rfl) exDataEvent (by simp) 0 5 (by rfl)
  exact h

theorem commit_ok_tracker {s s' : State} {l c : Int} (h : commit s l c = .ok s')
    (h1 : s.committedTransactionId ≤ s.openTransactionId)
    (h2 : s.committedUso ≤ s.uso) :
    s'.committedTransactionId ≤ s'.openTransactionId ∧
    s'.committedUso ≤ s'.uso ∧ s.committedUso ≤ s'.committedUso ∧
    s'.uso = s.uso := by
  unfold commit at h
  split at h
  · exact absurd h (by simp)
  · split at h
    · simp only [Except.ok.injEq] at h
      subst h
      exact ⟨h1, h2, le_refl _, rfl⟩
    · simp only [Except.ok.injEq] at h
      subst h
      rename_i hback hfast
      split
      · rename_i hA
        split
        · rename_i hB
          try dsimp only at hB
          try dsimp only
          exact ⟨by omega, by omega, by omega, rfl⟩
        · rename_i hB
          try dsimp only at hB
          try dsimp only
          exact ⟨by omega, by omega, by omega, rfl⟩
      · rename_i hA
        split
        · rename_i hB
          try dsimp only at hB
          try dsimp only
          exact ⟨by omega, by omega, by omega, rfl⟩
        · rename_i hB
          try dsimp only at hB
          try dsimp only
          exact ⟨h1, h2, le_refl _, rfl⟩

theorem rollbackTo_ok_fields {s : State} {mark : Nat} {s' : State}
    (h : rollbackTo s mark = .ok s') :
    s'.uso = mark ∧ s'.committedUso = s.committedUso ∧
    s'.openTransactionId = s.openTransactionId ∧
    s'.committedTransactionId = s.committedTransactionId ∧
    s'.signature = s.signature ∧ s'.generation = s.generation ∧
    s'.prevBlockGeneration = s.prevBlockGeneration ∧
    s'.defaultCapacity = s.defaultCapacity ∧ s'.partitionId = s.partitionId := by
  unfold rollbackTo at h
  split at h
  · exact absurd h (by simp)
  · split at h
    · exact absurd h (by simp)
    · split at h <;>
      · simp only [Except.ok.injEq] at h
        subst h
        exact ⟨rfl, rfl, rfl, rfl, rfl, rfl, rfl, rfl, rfl⟩

theorem setDefaultCapacity_ok_fields {s : State} {cap : Nat} {s' : State}
    (h : setDefaultCapacity s cap = .ok s') :
    s'.uso = s.uso ∧ s'.committedUso = s.committedUso ∧
    s'.openTransactionId = s.openTransactionId ∧
    s'.committedTransactionId = s.committedTransactionId := by
  unfold setDefaultCapacity at h
  split at h
  · exact absurd h (by simp)
  · split at h
    · exact absurd h (by simp)
    · have := extend_ok_unchanged h
      simp only [cleanupManagedBuffers] at this
      tauto

/-- Tracker invariant of claim C5. -/
def TrackerInv (s : State) : Prop :=
  s.committedTransactionId ≤ s.openTransactionId ∧ s.committedUso ≤ s.uso

theorem applyOp_tracker {s : State} {op : Op} {s' : State} {evs : List Event}
    (h : applyOp s op = .ok (s', evs))
    (hdisc : ∀ mark, op = .rollback mark → s.committedUso ≤ mark)
    (hinv : TrackerInv s) :
    TrackerInv s' ∧ s.committedUso ≤ s'.committedUso := by
  obtain ⟨hto, htu⟩ := hinv
  cases op with
  | append last txn seq ts gen tuple ins =>
    simp only [applyOp] at h
    obtain ⟨r, hr, hmap⟩ := except_map_ok h
    injection hmap with hm1 hm2
    obtain ⟨s1, s4, offs, hc, -, -, h4u, h4c, h4o, h4ct, hsc, hso, hsct, -, hsu⟩ :=
      appendTuple_ok_shape hr
    obtain ⟨hct, hcu, hcmono, hcuso⟩ := commit_ok_tracker hc hto htu
    rw [← hm1]
    refine ⟨⟨?_, ?_⟩, ?_⟩
    · rw [hsct, h4ct, hso, h4o]; exact hct
    · rw [hsc, h4c, hsu]
      calc s1.committedUso ≤ s1.uso := hcu
        _ = s.uso := hcuso
        _ ≤ _ := Nat.le_add_right _ _
    · rw [hsc, h4c]; exact hcmono
  | flush t last current =>
    simp only [applyOp] at h
    unfold periodicFlush at h
    split at h
    · obtain ⟨s1, hx, h⟩ := except_bind_ok h
      obtain ⟨s2, hy, h⟩ := except_bind_ok h
      simp only [Except.ok.injEq, Prod.mk.injEq] at h
      have hex := extend_ok_unchanged hx
      have hs0 :
          (if 0 < t then { s with lastFlush := t } else s).committedUso = s.committedUso ∧
          (if 0 < t then { s with lastFlush := t } else s).uso = s.uso ∧
          (if 0 < t then { s with lastFlush := t } else s).openTransactionId =
            s.openTransactionId ∧
          (if 0 < t then { s with lastFlush := t } else s).committedTransactionId =
            s.committedTransactionId := by
        split <;> exact ⟨rfl, rfl, rfl, rfl⟩
      have hct : s1.committedTransactionId ≤ s1.openTransactionId := by
        rw [hex.2.2.2.1, hex.2.2.1, hs0.2.2.2, hs0.2.2.1]; exact hto
      have hcu : s1.committedUso ≤ s1.uso := by
        rw [hex.2.1, hex.1, hs0.1, hs0.2.1]; exact htu
      obtain ⟨ht1, ht2, ht3, ht4⟩ := commit_ok_tracker hy hct hcu
      have hd := drain_fst_fields s2
      rw [← h.1]
      refine ⟨⟨?_, ?_⟩, ?_⟩
      · rw [hd.2.2.2.1, hd.2.2.1]; exact ht1
      · rw [hd.2.1, hd.1]; exact ht2
      · rw [hd.2.1]
        calc s.committedUso = s1.committedUso := by rw [hex.2.1, hs0.1]
          _ ≤ s2.committedUso := ht3
    · simp only [Except.ok.injEq, Prod.mk.injEq] at h
      rw [← h.1]
      exact ⟨⟨hto, htu⟩, le_refl _⟩
  | rollback mark =>
    simp only [applyOp] at h
    obtain ⟨a, ha, hmap⟩ := except_map_ok h
    injection hmap with hm1 hm2
    have hf := rollbackTo_ok_fields ha
    rw [← hm1]
    refine ⟨⟨?_, ?_⟩, ?_⟩
    · rw [hf.2.2.2.1, hf.2.2.1]; exact hto
    · rw [hf.2.1, hf.1]; exact hdisc mark rfl
    · rw [hf.2.1]
  | setSigGen sig gen =>
    simp only [applyOp] at h
    unfold setSignatureAndGeneration at h
    split at h
    · exact absurd h (by simp)
    · split at h
      · exact absurd h (by simp)
      · split at h
        · obtain ⟨s1, hx, h⟩ := except_bind_ok h
          obtain ⟨s2, hy, h⟩ := except_bind_ok h
          simp only [Except.ok.injEq, Prod.mk.injEq] at h
          obtain ⟨ht1, ht2, ht3, ht4⟩ := commit_ok_tracker hx hto htu
          have hex := extend_ok_unchanged hy
          have hd := drain_fst_fields s2
          rw [← h.1]
          refine ⟨⟨?_, ?_⟩, ?_⟩
          · show (drainPendingBlocks s2).1.committedTransactionId ≤
              (drainPendingBlocks s2).1.openTransactionId
            rw [hd.2.2.2.1, hd.2.2.1, hex.2.2.2.1, hex.2.2.1]; exact ht1
          · show (drainPendingBlocks s2).1.committedUso ≤ (drainPendingBlocks s2).1.uso
            rw [hd.2.1, hd.1, hex.2.1, hex.1]; exact ht2
          · show s.committedUso ≤ (drainPendingBlocks s2).1.committedUso
            rw [hd.2.1, hex.2.1]; exact ht3
        · simp only [Except.ok.injEq, Prod.mk.injEq] at h
          rw [← h.1]
          exact ⟨⟨hto, htu⟩, le_refl _⟩
  | setDefCap cap =>
    simp only [applyOp] at h
    obtain ⟨a, ha, hmap⟩ := except_map_ok h
    injection hmap with hm1 hm2
    have hf := setDefaultCapacity_ok_fields ha
    rw [← hm1]
    refine ⟨⟨?_, ?_⟩, ?_⟩
    · rw [hf.2.2.2, hf.2.2.1]; exact hto
    · rw [hf.2.1, hf.1]; exact htu
    · rw [hf.2.1]
  | cleanup =>
    simp only [applyOp, Except.ok.injEq, Prod.mk.injEq] at h
    rw [← h.1]
    exact ⟨⟨hto, htu⟩, le_refl _⟩

theorem reachable_of_run :
    ∀ {ops : List Op} {s s' : State} {evs : List Event},
      Reachable s → run s ops = .ok (s', evs) → Reachable s' := by
  intro ops
  induction ops with
  | nil =>
    intro s s' evs hr h
    simp only [run, Except.ok.injEq, Prod.mk.injEq] at h
    rw [← h.1]; exact hr
  | cons op rest ih =>
    intro s s' evs hr h
    simp only [run] at h
    obtain ⟨r1, h1, h⟩ := except_bind_ok h
    obtain ⟨r2, h2, h⟩ := except_bind_ok h
    simp only [Except.ok.injEq, Prod.mk.injEq] at h
    have hr1 : Reachable r1.1 := Reachable.step hr (by rw [← h1])
    rw [← h.1]
    exact ih hr1 (by rw [← h2])

/-! Claim C5: tracker invariants over reachable states. -/

/-- Claim C5 counterexample: under arbitrary operation sequences the claimed
invariant committed_uso <= USO fails at a reachable state: two appends of
distinct transactions move committed_uso to 61, and rollback_to(0) rewinds
uso to 0 while leaving committed_uso at 61. -/
theorem C5_counterexample :
    ¬ (∀ s, Reachable s →
        s.committedTransactionId ≤ s.openTransactionId ∧
        s.committedUso ≤ s.uso ∧
        (∀ op s' evs, applyOp s op = .ok (s', evs) →
          (∀ mark, op ≠ Op.rollback mark) →
          s.committedUso ≤ s'.committedUso)) := by
  intro h
  have hreach : Reachable exC5state :=
    reachable_of_run (Reachable.init 0 0 1024) (show run exInit exC5ops = _ by rfl)
  have h2 := (h exC5state hreach).2.1
  simp [exC5state] at h2

/-- Claim C5 as amended: in every state reachable by sequences in which
each rollback_to mark is at least the committed_uso at the time of the call
(the caller discipline of spec section 5), committed_txn <= open_txn and
committed_uso <= USO hold, and committed_uso never decreases across any
further disciplined operation (rollback included: rollback_to itself never
writes committed_uso). -/
theorem C5_amended_tracker_invariants :
    ∀ s, ReachableD s →
      s.committedTransactionId ≤ s.openTransactionId ∧
      s.committedUso ≤ s.uso ∧
      (∀ op s' evs, applyOp s op = .ok (s', evs) →
        (∀ mark, op = .rollback mark → s.committedUso ≤ mark) →
        s.committedUso ≤ s'.committedUso) := by
  have main : ∀ s, ReachableD s → TrackerInv s := by
    intro s hs
    induction hs with
    | init pid sid cap => exact ⟨le_refl _, Nat.le_refl _⟩
    | step hprev hop hdisc ih => exact (applyOp_tracker hop hdisc ih).1
  intro s hs
  refine ⟨(main s hs).1, (main s hs).2, ?_⟩
  intro op s' evs hop hdisc
  exact (applyOp_tracker hop hdisc (main s hs)).2

/-- Witness for claim C5 at a concrete input: the fresh stream is
disciplined-reachable and satisfies the tracker invariants, and an append
does not decrease its committed uso. -/
theorem C5_amended_tracker_invariants_witness :
    exInit.committedTransactionId ≤ exInit.openTransactionId ∧
    exInit.committedUso ≤ exInit.uso ∧
    exInit.committedUso ≤ exAppendedState.committedUso := by
  have h := C5_amended_tracker_invariants exInit (ReachableD.init 0 0 1024)
  refine ⟨h.1, h.2.1, ?_⟩
  exact h.2.2 (.append 5 5 1 1000 5 exTuple true) exAppendedState [] (by rfl)
    (fun mark hm => Op.noConfusion hm)

theorem drainPre_tail {blocks : List StreamBlock} {b : StreamBlock} {prev : Int}
    (h : DrainPre (b :: blocks) prev) : DrainPre blocks b.generationId := by
  obtain ⟨hsort, hprev, hno, hsent⟩ := h
  rw [List.pairwise_cons] at hsort
  exact ⟨hsort.2, hsort.1, fun x hx => hno x (by simp [hx]),
    le_trans hsent (hprev b (by simp))⟩

theorem drainLoop_prev_mono (cU : Nat) (sig : String) (pid : Int) :
    ∀ (blocks : List StreamBlock) (prev : Int), DrainPre blocks prev →
      prev ≤ (drainLoop cU sig pid blocks prev).2.1 := by
  intro blocks
  induction blocks with
  | nil => intro prev h; simp [drainLoop]
  | cons b rest ih =>
    intro prev h
    by_cases hcov : b.uso + b.offset ≤ cU
    · rw [drainLoop_cons_pos hcov]
      exact le_trans (h.2.1 b (by simp)) (ih b.generationId (drainPre_tail h))
    · rw [drainLoop_cons_neg hcov]
      exact h.2.1 b (by simp)

theorem drainLoop_res_ge (cU : Nat) (sig : String) (pid : Int) :
    ∀ (blocks : List StreamBlock) (prev : Int), DrainPre blocks prev →
      ∀ b' ∈ (drainLoop cU sig pid blocks prev).1,
        (drainLoop cU sig pid blocks prev).2.1 ≤ b'.generationId := by
  intro blocks
  induction blocks with
  | nil => intro prev h b' hb'; simp [drainLoop] at hb'
  | cons b rest ih =>
    intro prev h b' hb'
    by_cases hcov : b.uso + b.offset ≤ cU
    · rw [drainLoop_cons_pos hcov] at hb' ⊢
      exact ih b.generationId (drainPre_tail h) b' hb'
    · rw [drainLoop_cons_neg hcov] at hb' ⊢
      simp only [List.mem_cons] at hb'
      rcases hb' with rfl | hb'
      · exact le_refl _
      · have := h.1
        rw [List.pairwise_cons] at this
        exact this.1 b' hb'

theorem drainLoop_prev_origin (cU : Nat) (sig : String) (pid : Int) :
    ∀ (blocks : List StreamBlock) (prev : Int),
      (drainLoop cU sig pid blocks prev).2.1 = prev ∨
      ∃ b ∈ blocks, (drainLoop cU sig pid blocks prev).2.1 = b.generationId := by
  intro blocks
  induction blocks with
  | nil => intro prev; simp [drainLoop]
  | cons b rest ih =>
    intro prev
    by_cases hcov : b.uso + b.offset ≤ cU
    · rw [drainLoop_cons_pos hcov]
      rcases ih b.generationId with h | ⟨x, hx, hg⟩
      · exact Or.inr ⟨b, by simp, h⟩
      · exact Or.inr ⟨x, by simp [hx], hg⟩
    · rw [drainLoop_cons_neg hcov]
      exact Or.inr ⟨b, by simp, rfl⟩

theorem drainLoop_eos_facts (cU : Nat) (sig : String) (pid : Int) :
    ∀ (blocks : List StreamBlock) (prev : Int), DrainPre blocks prev →
      ∀ e ∈ (drainLoop cU sig pid blocks prev).2.2, isEosEvt e →
        prev ≤ e.generationId ∧
        e.generationId < (drainLoop cU sig pid blocks prev).2.1 ∧
        e.data = none ∧ e.signature = sig ∧ INT64_MIN < e.generationId := by
  intro blocks
  induction blocks with
  | nil => intro prev h e he; simp [drainLoop] at he
  | cons b rest ih =>
    intro prev h e he heos
    by_cases hcov : b.uso + b.offset ≤ cU
    · rw [drainLoop_cons_pos hcov] at he ⊢
      simp only [List.mem_append] at he
      rcases he with (he | he) | he
      · obtain ⟨hg, -, hs, hd, -, hlt, hne⟩ := drainEosEvents_mem he
        have hmono := drainLoop_prev_mono cU sig pid rest b.generationId (drainPre_tail h)
        refine ⟨le_of_eq hg.symm, ?_, hd, hs, ?_⟩
        · rw [hg]; exact lt_of_lt_of_le hlt hmono
        · rw [hg]
          rcases lt_or_eq_of_le h.2.2.2 with hlt' | heq
          · exact hlt'
          · exact absurd heq.symm hne
      · obtain ⟨-, -, -, -, heos', -⟩ := pushExportBlock_mem he
        rw [h.2.2.1 b (by simp)] at heos'
        rw [isEosEvt, heos'] at heos
        cases heos
      · obtain ⟨h1, h2, h3, h4, h5⟩ := ih b.generationId (drainPre_tail h) e he heos
        exact ⟨le_trans (h.2.1 b (by simp)) h1, h2, h3, h4, h5⟩
    · rw [drainLoop_cons_neg hcov] at he ⊢
      obtain ⟨hg, -, hs, hd, -, hlt, hne⟩ := drainEosEvents_mem he
      refine ⟨le_of_eq hg.symm, by rw [hg]; exact hlt, hd, hs, ?_⟩
      rw [hg]
      rcases lt_or_eq_of_le h.2.2.2 with hlt' | heq
      · exact hlt'
      · exact absurd heq.symm hne

theorem drainLoop_data_facts (cU : Nat) (sig : String) (pid : Int) :
    ∀ (blocks : List StreamBlock) (prev : Int), DrainPre blocks prev →
      ∀ e ∈ (drainLoop cU sig pid blocks prev).2.2, isDataEvt e →
        prev ≤ e.generationId ∧
        e.generationId ≤ (drainLoop cU sig pid blocks prev).2.1 ∧
        e.endOfStream = false := by
  intro blocks
  induction blocks with
  | nil => intro prev h e he; simp [drainLoop] at he
  | cons b rest ih =>
    intro prev h e he hdata
    by_cases hcov : b.uso + b.offset ≤ cU
    · rw [drainLoop_cons_pos hcov] at he ⊢
      simp only [List.mem_append] at he
      rcases he with (he | he) | he
      · have := (drainEosEvents_mem he).2.2.2.1
        rw [isDataEvt, this] at hdata
        cases hdata
      · obtain ⟨hg, -, -, -, heos', -⟩ := pushExportBlock_mem he
        have hmono := drainLoop_prev_mono cU sig pid rest b.generationId (drainPre_tail h)
        refine ⟨by rw [hg]; exact h.2.1 b (by simp), by rw [hg]; exact hmono, ?_⟩
        rw [heos']
        exact h.2.2.1 b (by simp)
      · obtain ⟨h1, h2, h3⟩ := ih b.generationId (drainPre_tail h) e he hdata
        exact ⟨le_trans (h.2.1 b (by simp)) h1, h2, h3⟩
    · rw [drainLoop_cons_neg hcov] at he ⊢
      have := (drainEosEvents_mem he).2.2.2.1
      rw [isDataEvt, this] at hdata
      cases hdata

theorem drainLoop_advance_marker (cU : Nat) (sig : String) (pid : Int) :
    ∀ (blocks : List StreamBlock) (prev : Int), DrainPre blocks prev →
      prev < (drainLoop cU sig pid blocks prev).2.1 → INT64_MIN < prev →
      ∃ e ∈ (drainLoop cU sig pid blocks prev).2.2,
        isEosEvt e ∧ e.generationId = prev := by
  intro blocks
  induction blocks with
  | nil => intro prev h hlt; simp [drainLoop] at hlt
  | cons b rest ih =>
    intro prev h hlt hmin
    by_cases hcov : b.uso + b.offset ≤ cU
    · rw [drainLoop_cons_pos hcov] at hlt ⊢
      by_cases hbg : prev < b.generationId
      · refine ⟨{ generationId := prev, partitionId := pid, signature := sig,
                  data := none, sync := false, endOfStream := true }, ?_, rfl, rfl⟩
        simp only [List.mem_append]
        refine Or.inl (Or.inl ?_)
        unfold drainEosEvents
        rw [if_pos ⟨hbg, by omega⟩]
        unfold pushExportBlock
        simp
      · have hbe : b.generationId = prev := le_antisymm (not_lt.mp hbg) (h.2.1 b (by simp))
        obtain ⟨e, he, h1, h2⟩ := ih b.generationId (drainPre_tail h)
          (lt_of_le_of_lt (le_of_eq hbe) hlt)
          (lt_of_lt_of_le hmin (le_of_eq hbe.symm))
        refine ⟨e, ?_, h1, by rw [h2, hbe]⟩
        simp only [List.mem_append]
        tauto
    · rw [drainLoop_cons_neg hcov] at hlt ⊢
      refine ⟨{ generationId := prev, partitionId := pid, signature := sig,
                data := none, sync := false, endOfStream := true }, ?_, rfl, rfl⟩
      unfold drainEosEvents
      rw [if_pos ⟨hlt, by omega⟩]
      unfold pushExportBlock
      simp

theorem drainLoop_eos_exists (cU : Nat) (sig : String) (pid : Int) :
    ∀ (blocks : List StreamBlock) (prev : Int), DrainPre blocks prev →
      ∀ g, INT64_MIN < g → g < (drainLoop cU sig pid blocks prev).2.1 →
      (∃ e ∈ (drainLoop cU sig pid blocks prev).2.2, isDataEvt e ∧ e.generationId = g) →
      ∃ e ∈ (drainLoop cU sig pid blocks prev).2.2,
        isEosEvt e ∧ e.generationId = g := by
  intro blocks
  induction blocks with
  | nil => intro prev h g hmin hlt hex; simp [drainLoop] at hex
  | cons b rest ih =>
    intro prev h g hmin hlt hex
    by_cases hcov : b.uso + b.offset ≤ cU
    · rw [drainLoop_cons_pos hcov] at hlt hex ⊢
      obtain ⟨e, he, hdata, hgen⟩ := hex
      simp only [List.mem_append] at he
      rcases he with (he | he) | he
      · have := (drainEosEvents_mem he).2.2.2.1
        rw [isDataEvt, this] at hdata
        cases hdata
      · obtain ⟨hg, -, -, -, -, -⟩ := pushExportBlock_mem he
        have hbg : b.generationId = g := by rw [← hgen, hg]
        obtain ⟨e', he', h1, h2⟩ := drainLoop_advance_marker cU sig pid rest
          b.generationId (drainPre_tail h)
          (lt_of_le_of_lt (le_of_eq hbg) hlt)
          (lt_of_lt_of_le hmin (le_of_eq hbg.symm))
        refine ⟨e', ?_, h1, by rw [h2, hbg]⟩
        simp only [List.mem_append]
        tauto
      · obtain ⟨e', he', h1, h2⟩ := ih b.generationId (drainPre_tail h) g hmin hlt
          ⟨e, he, hdata, hgen⟩
        refine ⟨e', ?_, h1, h2⟩
        simp only [List.mem_append]
        tauto
    · rw [drainLoop_cons_neg hcov] at hlt hex ⊢
      obtain ⟨e, he, hdata, hgen⟩ := hex
      have := (drainEosEvents_mem he).2.2.2.1
      rw [isDataEvt, this] at hdata
      cases hdata

theorem drainLoop_eos_sig (cU : Nat) (sig : String) (pid : Int) :
    ∀ (blocks : List StreamBlock) (prev : Int),
      (∀ b ∈ blocks, b.endOfStream = false) →
      ∀ e ∈ (drainLoop cU sig pid blocks prev).2.2, isEosEvt e →
        e.signature = sig := by
  intro blocks
  induction blocks with
  | nil => intro prev h e he; simp [drainLoop] at he
  | cons b rest ih =>
    intro prev h e he heos
    by_cases hcov : b.uso + b.offset ≤ cU
    · rw [drainLoop_cons_pos hcov] at he
      simp only [List.mem_append] at he
      rcases he with (he | he) | he
      · exact (drainEosEvents_mem he).2.2.1
      · obtain ⟨-, -, -, -, heos', -⟩ := pushExportBlock_mem he
        rw [h b (by simp)] at heos'
        rw [isEosEvt, heos'] at heos
        cases heos
      · exact ih b.generationId (fun x hx => h x (by simp [hx])) e he heos
    · rw [drainLoop_cons_neg hcov] at he
      exact (drainEosEvents_mem he).2.2.1

theorem pushExportBlock_pairwise {R : Event → Event → Prop} {pid : Int}
    {b : StreamBlock} : (pushExportBlock pid b).Pairwise R := by
  unfold pushExportBlock
  split
  · exact List.pairwise_singleton R _
  · split
    · exact List.pairwise_singleton R _
    · exact List.Pairwise.nil

theorem drainEosEvents_pairwise {R : Event → Event → Prop} {pid : Int}
    {sig : String} {prev : Int} {b : StreamBlock} :
    (drainEosEvents pid sig prev b).Pairwise R := by
  unfold drainEosEvents
  split
  · exact pushExportBlock_pairwise
  · exact List.Pairwise.nil

theorem drainLoop_pairwise (cU : Nat) (sig : String) (pid : Int) :
    ∀ (blocks : List StreamBlock) (prev : Int), DrainPre blocks prev →
      ((drainLoop cU sig pid blocks prev).2.2).Pairwise evtOrd := by
  intro blocks
  induction blocks with
  | nil => intro prev h; simp [drainLoop]
  | cons b rest ih =>
    intro prev h
    have hpre := drainPre_tail h
    have hbno : b.endOfStream = false := h.2.2.1 b (by simp)
    have hbprev : prev ≤ b.generationId := h.2.1 b (by simp)
    by_cases hcov : b.uso + b.offset ≤ cU
    · rw [drainLoop_cons_pos hcov]
      dsimp only
      rw [List.append_assoc, List.pairwise_append]
      refine ⟨drainEosEvents_pairwise, ?_, ?_⟩
      · rw [List.pairwise_append]
        refine ⟨pushExportBlock_pairwise, ih b.generationId hpre, ?_⟩
        intro a ha x hx
        obtain ⟨hag, -, -, -, haeos, -⟩ := pushExportBlock_mem ha
        have hanoeos : isEosEvt a = false := by rw [isEosEvt, haeos, hbno]
        refine ⟨fun h1 => absurd h1 (by rw [hanoeos]; simp),
                fun h1 => absurd h1 (by rw [hanoeos]; simp), ?_, ?_⟩
        · intro _ hx1
          rw [hag]
          exact (drainLoop_eos_facts cU sig pid rest b.generationId hpre x hx hx1).1
        · intro _ hx1
          rw [hag]
          exact (drainLoop_data_facts cU sig pid rest b.generationId hpre x hx hx1).1
      · intro a ha x hx
        obtain ⟨hag, -, -, had, -, hlt, hne⟩ := drainEosEvents_mem ha
        have hanodata : isDataEvt a = false := by rw [isDataEvt, had]; rfl
        simp only [List.mem_append] at hx
        refine ⟨?_, ?_, fun h1 => absurd h1 (by rw [hanodata]; simp),
                fun h1 => absurd h1 (by rw [hanodata]; simp)⟩
        · intro _ hx1
          rcases hx with hx | hx
          · obtain ⟨-, -, -, -, hxeos, -⟩ := pushExportBlock_mem hx
            rw [isEosEvt, hxeos, hbno] at hx1
            cases hx1
          · rw [hag]
            exact lt_of_lt_of_le hlt
              (drainLoop_eos_facts cU sig pid rest b.generationId hpre x hx hx1).1
        · intro _ hx1
          rcases hx with hx | hx
          · obtain ⟨hxg, -, -, -, -, -⟩ := pushExportBlock_mem hx
            rw [hag, hxg]
            exact hlt
          · rw [hag]
            exact lt_of_lt_of_le hlt
              (drainLoop_data_facts cU sig pid rest b.generationId hpre x hx hx1).1
    · rw [drainLoop_cons_neg hcov]
      exact drainEosEvents_pairwise

theorem stateInv_drainPre {s : State} (hs : StateInv s) :
    DrainPre s.pendingBlocks s.prevBlockGeneration :=
  ⟨hs.sorted, hs.prevLePending, hs.noEosPending, hs.sentinelPrev⟩

theorem drain_preserves {s : State} (hs : StateInv s) {evs : List Event}
    (ht : TraceInv evs s) :
    StateInv (drainPendingBlocks s).1 ∧
    TraceInv (evs ++ (drainPendingBlocks s).2) (drainPendingBlocks s).1 := by
  have hpre := stateInv_drainPre hs
  set cU := s.committedUso with hcU
  set sg := s.signature with hsg
  set pid := s.partitionId with hpid
  set P := s.pendingBlocks with hP
  set pv := s.prevBlockGeneration with hpv
  have hmono := drainLoop_prev_mono cU sg pid P pv hpre
  have hsub : ∀ b ∈ (drainLoop cU sg pid P pv).1, b ∈ P := by
    obtain ⟨k, hk⟩ := drainLoop_suffix cU sg pid P pv
    intro b hb
    rw [hk] at hb
    exact List.mem_of_mem_drop hb
  constructor
  · refine ⟨?_, ?_, ?_, ?_, ?_, ?_, ?_, ?_, ?_, ?_, ?_⟩
    · show ((drainLoop cU sg pid P pv).1).Pairwise _
      obtain ⟨k, hk⟩ := drainLoop_suffix cU sg pid P pv
      rw [hk]
      exact hs.sorted.sublist (List.drop_sublist k P)
    · exact drainLoop_res_ge cU sg pid P pv hpre
    · intro b hb c hc
      exact hs.pendingLeCurr b (hsub b hb) c hc
    · intro c hc
      exact hs.currLeGen c hc
    · intro b hb
      exact hs.pendingLeGen b (hsub b hb)
    · show (drainLoop cU sg pid P pv).2.1 ≤ s.generation
      rcases drainLoop_prev_origin cU sg pid P pv with h | ⟨b, hb, h⟩
      · rw [h]; exact hs.prevLeGen
      · rw [h]; exact hs.pendingLeGen b hb
    · intro c hc
      show (drainLoop cU sg pid P pv).2.1 ≤ c.generationId
      rcases drainLoop_prev_origin cU sg pid P pv with h | ⟨b, hb, h⟩
      · rw [h]; exact hs.prevLeCurr c hc
      · rw [h]; exact hs.pendingLeCurr b hb c hc
    · intro b hb
      exact hs.noEosPending b (hsub b hb)
    · intro c hc
      exact hs.noEosCurr c hc
    · show INT64_MIN ≤ (drainLoop cU sg pid P pv).2.1
      exact le_trans hs.sentinelPrev hmono
    · exact hs.sentinelGen
  · refine ⟨?_, ?_, ?_, ?_⟩
    · rw [List.pairwise_append]
      refine ⟨ht.ord, drainLoop_pairwise cU sg pid P pv hpre, ?_⟩
      intro a ha x hx
      refine ⟨?_, ?_, ?_, ?_⟩
      · intro h1 h2
        exact lt_of_lt_of_le ((ht.eosFacts a ha h1).1)
          (drainLoop_eos_facts cU sg pid P pv hpre x hx h2).1
      · intro h1 h2
        exact lt_of_lt_of_le ((ht.eosFacts a ha h1).1)
          (drainLoop_data_facts cU sg pid P pv hpre x hx h2).1
      · intro h1 h2
        exact le_trans ((ht.dataFacts a ha h1).1)
          (drainLoop_eos_facts cU sg pid P pv hpre x hx h2).1
      · intro h1 h2
        exact le_trans ((ht.dataFacts a ha h1).1)
          (drainLoop_data_facts cU sg pid P pv hpre x hx h2).1
    · intro e he heos
      simp only [List.mem_append] at he
      rcases he with he | he
      · obtain ⟨h1, h2, h3⟩ := ht.eosFacts e he heos
        exact ⟨lt_of_lt_of_le h1 hmono, h2, h3⟩
      · obtain ⟨-, h2, h3, -, h5⟩ := drainLoop_eos_facts cU sg pid P pv hpre e he heos
        exact ⟨h2, h5, h3⟩
    · intro e he hdata
      simp only [List.mem_append] at he
      rcases he with he | he
      · obtain ⟨h1, h2⟩ := ht.dataFacts e he hdata
        exact ⟨le_trans h1 hmono, h2⟩
      · obtain ⟨-, h2, h3⟩ := drainLoop_data_facts cU sg pid P pv hpre e he hdata
        exact ⟨h2, h3⟩
    · intro g hmin hlt hex
      obtain ⟨e, he, hdata, hgen⟩ := hex
      simp only [List.mem_append] at he
      rcases he with he | he
      · have hle : g ≤ pv := by
          rw [← hgen]
          exact (ht.dataFacts e he hdata).1
        rcases lt_or_eq_of_le hle with hglt | hgeq
        · obtain ⟨e', he', h1, h2⟩ := ht.eosExists g hmin hglt ⟨e, he, hdata, hgen⟩
          exact ⟨e', List.mem_append.mpr (Or.inl he'), h1, h2⟩
        · subst hgeq
          obtain ⟨e', he', h1, h2⟩ := drainLoop_advance_marker cU sg pid P pv hpre
            hlt hmin
          exact ⟨e', List.mem_append.mpr (Or.inr he'), h1, h2⟩
      · obtain ⟨e', he', h1, h2⟩ := drainLoop_eos_exists cU sg pid P pv hpre g
          hmin hlt ⟨e, he, hdata, hgen⟩
        exact ⟨e', List.mem_append.mpr (Or.inr he'), h1, h2⟩

theorem stateInv_congr {s s' : State}
    (h1 : s'.pendingBlocks = s.pendingBlocks) (h2 : s'.currBlock = s.currBlock)
    (h3 : s'.generation = s.generation)
    (h4 : s'.prevBlockGeneration = s.prevBlockGeneration)
    (hs : StateInv s) : StateInv s' := by
  refine ⟨?_, ?_, ?_, ?_, ?_, ?_, ?_, ?_, ?_, ?_, ?_⟩
  · rw [h1]; exact hs.sorted
  · rw [h1, h4]; exact hs.prevLePending
  · rw [h1, h2]; exact hs.pendingLeCurr
  · rw [h2, h3]; exact hs.currLeGen
  · rw [h1, h3]; exact hs.pendingLeGen
  · rw [h3, h4]; exact hs.prevLeGen
  · rw [h2, h4]; exact hs.prevLeCurr
  · rw [h1]; exact hs.noEosPending
  · rw [h2]; exact hs.noEosCurr
  · rw [h4]; exact hs.sentinelPrev
  · rw [h3]; exact hs.sentinelGen

theorem traceInv_congr {s s' : State} {evs : List Event}
    (h : s'.prevBlockGeneration = s.prevBlockGeneration)
    (ht : TraceInv evs s) : TraceInv evs s' := by
  refine ⟨ht.ord, ?_, ?_, ?_⟩
  · rw [h]; exact ht.eosFacts
  · rw [h]; exact ht.dataFacts
  · rw [h]; exact ht.eosExists

theorem extend_StateInv {s s' : State} {n : Nat}
    (h : extendBufferChain s n = .ok s') (hs : StateInv s) : StateInv s' := by
  unfold extendBufferChain at h
  split at h
  · exact absurd h (by simp)
  · simp only [Except.ok.injEq] at h
    subst h
    have hto : ∀ x ∈ s.currBlock.toList, s.currBlock = some x := by
      intro x hx
      cases hc : s.currBlock with
      | none => rw [hc] at hx; simp at hx
      | some c => rw [hc] at hx; simp at hx; rw [hx]
    refine ⟨?_, ?_, ?_, ?_, ?_, ?_, ?_, ?_, ?_, ?_, ?_⟩
    · show (s.pendingBlocks ++ s.currBlock.toList).Pairwise _
      rw [List.pairwise_append]
      refine ⟨hs.sorted, ?_, ?_⟩
      · cases hc : s.currBlock with
        | none => simp
        | some c => simp
      · intro a ha x hx
        exact hs.pendingLeCurr a ha x (hto x hx)
    · intro b hb
      simp only [List.mem_append] at hb
      rcases hb with hb | hb
      · exact hs.prevLePending b hb
      · exact hs.prevLeCurr b (hto b hb)
    · intro b hb c hc
      simp only [Option.some.injEq] at hc
      rw [← hc]
      simp only [List.mem_append] at hb
      rcases hb with hb | hb
      · exact hs.pendingLeGen b hb
      · exact hs.currLeGen b (hto b hb)
    · intro c hc
      simp only [Option.some.injEq] at hc
      rw [← hc]
    · intro b hb
      simp only [List.mem_append] at hb
      rcases hb with hb | hb
      · exact hs.pendingLeGen b hb
      · exact hs.currLeGen b (hto b hb)
    · exact hs.prevLeGen
    · intro c hc
      simp only [Option.some.injEq] at hc
      rw [← hc]
      exact hs.prevLeGen
    · intro b hb
      simp only [List.mem_append] at hb
      rcases hb with hb | hb
      · exact hs.noEosPending b hb
      · exact hs.noEosCurr b (hto b hb)
    · intro c hc
      simp only [Option.some.injEq] at hc
      rw [← hc]
    · exact hs.sentinelPrev
    · exact hs.sentinelGen

theorem gen_raise_StateInv {s : State} {g : Int} (hlt : s.generation ≤ g)
    (hs : StateInv s) : StateInv { s with generation := g } := by
  refine ⟨hs.sorted, hs.prevLePending, ?_, ?_, ?_, ?_, ?_, hs.noEosPending, ?_,
    hs.sentinelPrev, le_trans hs.sentinelGen hlt⟩
  · exact fun b hb c hc => hs.pendingLeCurr b hb c hc
  · exact fun c hc => le_trans (hs.currLeGen c hc) hlt
  · exact fun b hb => le_trans (hs.pendingLeGen b hb) hlt
  · exact le_trans hs.prevLeGen hlt
  · exact fun c hc => hs.prevLeCurr c hc
  · exact fun c hc => hs.noEosCurr c hc

theorem appendGenerationPhase_StateInv {s s' : State} {g : Int}
    (h : appendGenerationPhase s g = .ok s') (hs : StateInv s) : StateInv s' := by
  unfold appendGenerationPhase at h
  split at h
  · rename_i hgt
    exact extend_StateInv h (gen_raise_StateInv (le_of_lt hgt) hs)
  · simp only [Except.ok.injEq] at h
    subst h
    exact hs

theorem appendEnsureCurrentPhase_StateInv {s s' : State}
    (h : appendEnsureCurrentPhase s = .ok s') (hs : StateInv s) : StateInv s' := by
  unfold appendEnsureCurrentPhase at h
  split at h
  · exact extend_StateInv h hs
  · simp only [Except.ok.injEq] at h
    subst h
    exact hs

theorem appendCapacityPhase_StateInv {s s' : State} {n : Nat}
    (h : appendCapacityPhase s n = .ok s') (hs : StateInv s) : StateInv s' := by
  unfold appendCapacityPhase at h
  split at h
  · exact absurd h (by simp)
  · split at h
    · exact extend_StateInv h hs
    · simp only [Except.ok.injEq] at h
      subst h
      exact hs

theorem appendWritePhase_StateInv {s : State} {rh : Nat} {tuple : TableTuple}
    {s' : State} {tok : Nat} (h : appendWritePhase s rh tuple = .ok (s', tok))
    (hs : StateInv s) : StateInv s' := by
  unfold appendWritePhase at h
  split at h
  · exact absurd h (by simp)
  · rename_i c0 hc0
    set c1 := if c0.offset = 0 then
        { c0 with generationId := s.generation, signature := s.signature }
      else c0 with hc1
    simp only [StreamBlock.consumed] at h
    split at h
    · exact absurd h (by simp)
    · rename_i c2 hc2
      have hc2' : c2 = { c1 with
          offset := c1.offset + (rh + (metadataBytesWritten + tuple.exportBytes)) } := by
        split at hc2
        · cases hc2
        · simp only [Option.some.injEq] at hc2
          exact hc2.symm
      subst hc2'
      simp only [Except.ok.injEq, Prod.mk.injEq] at h
      obtain ⟨hs', -⟩ := h
      subst hs'
      have hgle : c1.generationId ≤ s.generation := by
        rw [hc1]; split
        · exact le_refl _
        · exact hs.currLeGen c0 hc0
      have hpge : ∀ b ∈ s.pendingBlocks, b.generationId ≤ c1.generationId := by
        rw [hc1]; split
        · intro b hb; exact hs.pendingLeGen b hb
        · intro b hb; exact hs.pendingLeCurr b hb c0 hc0
      have hprev : s.prevBlockGeneration ≤ c1.generationId := by
        rw [hc1]; split
        · exact hs.prevLeGen
        · exact hs.prevLeCurr c0 hc0
      have heosf : c1.endOfStream = false := by
        rw [hc1]; split
        · show c0.endOfStream = false
          exact hs.noEosCurr c0 hc0
        · exact hs.noEosCurr c0 hc0
      refine ⟨hs.sorted, hs.prevLePending, ?_, ?_, hs.pendingLeGen,
        hs.prevLeGen, ?_, hs.noEosPending, ?_, hs.sentinelPrev, hs.sentinelGen⟩
      · intro b hb cx hcx
        simp only [Option.some.injEq] at hcx
        rw [← hcx]
        exact hpge b hb
      · intro cx hcx
        simp only [Option.some.injEq] at hcx
        rw [← hcx]
        exact hgle
      · intro cx hcx
        simp only [Option.some.injEq] at hcx
        rw [← hcx]
        exact hprev
      · intro cx hcx
        simp only [Option.some.injEq] at hcx
        rw [← hcx]
        exact heosf

theorem rollbackPopBack_shape {mark : Nat} :
    ∀ {l rest : List StreamBlock} {ob : Option StreamBlock},
      rollbackPopBack mark l = (rest, ob) →
      (rest = [] ∧ ob = none) ∨
      ∃ k b0, l.drop k = b0 :: rest ∧ ob = some (b0.truncateTo mark) := by
  intro l
  induction l with
  | nil =>
    intro rest ob h
    simp only [rollbackPopBack, Prod.mk.injEq] at h
    exact Or.inl ⟨h.1.symm, h.2.symm⟩
  | cons sb tl ih =>
    intro rest ob h
    unfold rollbackPopBack at h
    split at h
    · rcases ih h with hl | ⟨k, b0, hk, hob⟩
      · exact Or.inl hl
      · exact Or.inr ⟨k + 1, b0, hk, hob⟩
    · simp only [Prod.mk.injEq] at h
      exact Or.inr ⟨0, sb, by rw [List.drop_zero, h.1], h.2.symm⟩

theorem rollback_StateInv {s : State} {mark : Nat} {s' : State}
    (h : rollbackTo s mark = .ok s') (hs : StateInv s) : StateInv s' := by
  unfold rollbackTo at h
  split at h
  · exact absurd h (by simp)
  · split at h
    · exact absurd h (by simp)
    · rename_i c hc
      split at h
      · simp only [Except.ok.injEq] at h
        subst h
        refine ⟨hs.sorted, hs.prevLePending, ?_, ?_, hs.pendingLeGen,
          hs.prevLeGen, ?_, hs.noEosPending, ?_, hs.sentinelPrev, hs.sentinelGen⟩
        · intro b hb cx hcx
          simp only [Option.some.injEq] at hcx
          rw [← hcx]
          show b.generationId ≤ (c.truncateTo mark).generationId
          exact hs.pendingLeCurr b hb c hc
        · intro cx hcx
          simp only [Option.some.injEq] at hcx
          rw [← hcx]
          show (c.truncateTo mark).generationId ≤ s.generation
          exact hs.currLeGen c hc
        · intro cx hcx
          simp only [Option.some.injEq] at hcx
          rw [← hcx]
          show s.prevBlockGeneration ≤ (c.truncateTo mark).generationId
          exact hs.prevLeCurr c hc
        · intro cx hcx
          simp only [Option.some.injEq] at hcx
          rw [← hcx]
          show (c.truncateTo mark).endOfStream = false
          exact hs.noEosCurr c hc
      · simp only [Except.ok.injEq] at h
        subst h
        rcases @rollbackPopBack_shape mark s.pendingBlocks.reverse
          (rollbackPopBack mark s.pendingBlocks.reverse).1
          (rollbackPopBack mark s.pendingBlocks.reverse).2 rfl with
          ⟨h1, h2⟩ | ⟨k, b0, hk, hob⟩
        · rw [h1, h2]
          refine ⟨by simp, by simp, by simp, by simp, by simp, hs.prevLeGen,
            by simp, by simp, by simp, hs.sentinelPrev, hs.sentinelGen⟩
        · rw [hob]
          have hsubrev : ∀ x ∈ (rollbackPopBack mark s.pendingBlocks.reverse).1,
              x ∈ s.pendingBlocks := by
            intro x hx
            have : x ∈ s.pendingBlocks.reverse.drop k := by
              rw [hk]; simp [hx]
            exact List.mem_reverse.mp (List.mem_of_mem_drop this)
          have hb0 : b0 ∈ s.pendingBlocks := by
            have : b0 ∈ s.pendingBlocks.reverse.drop k := by
              rw [hk]; simp
            exact List.mem_reverse.mp (List.mem_of_mem_drop this)
          have hpairs : ∀ x ∈ (rollbackPopBack mark s.pendingBlocks.reverse).1,
              x.generationId ≤ b0.generationId := by
            intro x hx
            have hrev : (s.pendingBlocks.reverse).Pairwise
                (fun a b => b.generationId ≤ a.generationId) := by
              rw [List.pairwise_reverse]
              exact hs.sorted
            have hdp : (s.pendingBlocks.reverse.drop k).Pairwise
                (fun a b => b.generationId ≤ a.generationId) :=
              hrev.sublist (List.drop_sublist k _)
            rw [hk, List.pairwise_cons] at hdp
            exact hdp.1 x hx
          refine ⟨?_, ?_, ?_, ?_, ?_, hs.prevLeGen, ?_, ?_, ?_,
            hs.sentinelPrev, hs.sentinelGen⟩
          · show ((rollbackPopBack mark s.pendingBlocks.reverse).1.reverse).Pairwise _
            rw [List.pairwise_reverse]
            have hrev : (s.pendingBlocks.reverse).Pairwise
                (fun a b => b.generationId ≤ a.generationId) := by
              rw [List.pairwise_reverse]
              exact hs.sorted
            have hdp := hrev.sublist (List.drop_sublist k _)
            rw [hk, List.pairwise_cons] at hdp
            exact hdp.2
          · intro b hb
            rw [List.mem_reverse] at hb
            exact hs.prevLePending b (hsubrev b hb)
          · intro b hb cx hcx
            simp only [Option.some.injEq] at hcx
            rw [← hcx]
            show b.generationId ≤ (b0.truncateTo mark).generationId
            rw [List.mem_reverse] at hb
            exact hpairs b hb
          · intro cx hcx
            simp only [Option.some.injEq] at hcx
            rw [← hcx]
            show (b0.truncateTo mark).generationId ≤ s.generation
            exact hs.pendingLeGen b0 hb0
          · intro b hb
            rw [List.mem_reverse] at hb
            exact hs.pendingLeGen b (hsubrev b hb)
          · intro cx hcx
            simp only [Option.some.injEq] at hcx
            rw [← hcx]
            show s.prevBlockGeneration ≤ (b0.truncateTo mark).generationId
            exact hs.prevLePending b0 hb0
          · intro b hb
            rw [List.mem_reverse] at hb
            exact hs.noEosPending b (hsubrev b hb)
          · intro cx hcx
            simp only [Option.some.injEq] at hcx
            rw [← hcx]
            show (b0.truncateTo mark).endOfStream = false
            exact hs.noEosPending b0 hb0

theorem appendTuple_ok_chain {s : State} {last txn seq ts gen : Int}
    {tuple : TableTuple} {ins : Bool} {s' : State} {tok : Nat} {evs : List Event}
    (h : appendTuple s last txn seq ts gen tuple ins = .ok (s', tok, evs)) :
    ∃ s1 offs s2 s3 s4,
      commit s last txn = .ok s1 ∧
      computeOffsets tuple = .ok offs ∧
      appendGenerationPhase s1 gen = .ok s2 ∧
      appendEnsureCurrentPhase s2 = .ok s3 ∧
      appendCapacityPhase s3 offs.2 = .ok s4 ∧
      appendWritePhase (drainPendingBlocks s4).1 offs.1 tuple = .ok (s', tok) ∧
      evs = (drainPendingBlocks s4).2 := by
  unfold appendTuple at h
  split at h
  · exact absurd h (by simp)
  · obtain ⟨s1, hc, h⟩ := except_bind_ok h
    obtain ⟨offs, ho, h⟩ := except_bind_ok h
    obtain ⟨s2, hg, h⟩ := except_bind_ok h
    obtain ⟨s3, he, h⟩ := except_bind_ok h
    obtain ⟨s4, hcap, h⟩ := except_bind_ok h
    obtain ⟨w, hw, h⟩ := except_bind_ok h
    simp only [Except.ok.injEq, Prod.mk.injEq] at h
    obtain ⟨hs', htok, hevs⟩ := h
    refine ⟨s1, offs, s2, s3, s4, hc, ho, hg, he, hcap, ?_, by rw [← hevs]⟩
    have hw' : w = (s', tok) := Prod.ext hs' htok
    rw [hw'] at hw
    exact hw

theorem stateInv_cleanup {s : State} (hs : StateInv s) :
    StateInv (cleanupManagedBuffers s) := by
  refine ⟨?_, ?_, ?_, ?_, ?_, hs.prevLeGen, ?_, ?_, ?_,
    hs.sentinelPrev, hs.sentinelGen⟩ <;>
    simp [cleanupManagedBuffers]

theorem applyOp_C3inv {s : State} {op : Op} {s' : State} {evsOp : List Event}
    (h : applyOp s op = .ok (s', evsOp)) {evs : List Event}
    (hs : StateInv s) (ht : TraceInv evs s) :
    StateInv s' ∧ TraceInv (evs ++ evsOp) s' := by
  cases op with
  | append last txn seq ts gen tuple ins =>
    simp only [applyOp] at h
    obtain ⟨r, hr, hmap⟩ := except_map_ok h
    injection hmap with hm1 hm2
    obtain ⟨s1, offs, s2, s3, s4, hc, ho, hg, he, hcap, hw, hevs⟩ :=
      appendTuple_ok_chain hr
    have hu1 := commit_ok_unchanged hc
    have hs1 : StateInv s1 :=
      stateInv_congr hu1.2.2.1 hu1.2.1 hu1.2.2.2.2.2.2.1 hu1.2.2.2.2.2.2.2.1 hs
    have ht1 : TraceInv evs s1 := traceInv_congr hu1.2.2.2.2.2.2.2.1 ht
    have hs2 : StateInv s2 := appendGenerationPhase_StateInv hg hs1
    have ht2 : TraceInv evs s2 :=
      traceInv_congr (appendGenerationPhase_ok hg).2.2.2.2.1 ht1
    have hs3 : StateInv s3 := appendEnsureCurrentPhase_StateInv he hs2
    have ht3 : TraceInv evs s3 :=
      traceInv_congr (appendEnsureCurrentPhase_ok he).2.2.2.2.1 ht2
    have hs4 : StateInv s4 := appendCapacityPhase_StateInv hcap hs3
    have ht4 : TraceInv evs s4 :=
      traceInv_congr (appendCapacityPhase_ok hcap).2.2.2.2.1 ht3
    obtain ⟨hsd, htd⟩ := drain_preserves hs4 ht4
    have hsw : StateInv r.1 := appendWritePhase_StateInv hw hsd
    have htw : TraceInv (evs ++ (drainPendingBlocks s4).2) r.1 :=
      traceInv_congr (appendWritePhase_ok hw).2.2.2.2.2.2.1 htd
    rw [← hm1, ← hm2, hevs]
    exact ⟨hsw, htw⟩
  | flush t last current =>
    simp only [applyOp] at h
    unfold periodicFlush at h
    split at h
    · obtain ⟨s1, hx, h⟩ := except_bind_ok h
      obtain ⟨s2, hy, h⟩ := except_bind_ok h
      simp only [Except.ok.injEq, Prod.mk.injEq] at h
      have hS0s : StateInv (if 0 < t then { s with lastFlush := t } else s) := by
        split
        · refine stateInv_congr ?_ ?_ ?_ ?_ hs <;> rfl
        · exact hs
      have hS0t : TraceInv evs (if 0 < t then { s with lastFlush := t } else s) := by
        split
        · refine traceInv_congr ?_ ht
          rfl
        · exact ht
      have hs1 : StateInv s1 := extend_StateInv hx hS0s
      have ht1 : TraceInv evs s1 :=
        traceInv_congr (extend_ok_unchanged hx).2.2.2.2.2.2.2.2.1 hS0t
      have hu2 := commit_ok_unchanged hy
      have hs2 : StateInv s2 :=
        stateInv_congr hu2.2.2.1 hu2.2.1 hu2.2.2.2.2.2.2.1 hu2.2.2.2.2.2.2.2.1 hs1
      have ht2 : TraceInv evs s2 := traceInv_congr hu2.2.2.2.2.2.2.2.1 ht1
      obtain ⟨hsd, htd⟩ := drain_preserves hs2 ht2
      rw [← h.1, ← h.2]
      exact ⟨hsd, htd⟩
    · simp only [Except.ok.injEq, Prod.mk.injEq] at h
      rw [← h.1, ← h.2, List.append_nil]
      exact ⟨hs, ht⟩
  | rollback mark =>
    simp only [applyOp] at h
    obtain ⟨a, ha, hmap⟩ := except_map_ok h
    injection hmap with hm1 hm2
    rw [← hm1, ← hm2, List.append_nil]
    exact ⟨rollback_StateInv ha hs,
      traceInv_congr (rollbackTo_ok_fields ha).2.2.2.2.2.2.1 ht⟩
  | setSigGen sig gen =>
    simp only [applyOp] at h
    unfold setSignatureAndGeneration at h
    split at h
    · exact absurd h (by simp)
    · rename_i hgen
      rw [not_not] at hgen
      split at h
      · exact absurd h (by simp)
      · split at h
        · obtain ⟨s1, hx, h⟩ := except_bind_ok h
          obtain ⟨s2, hy, h⟩ := except_bind_ok h
          simp only [Except.ok.injEq, Prod.mk.injEq] at h
          have hu1 := commit_ok_unchanged hx
          have hs1 : StateInv s1 :=
            stateInv_congr hu1.2.2.1 hu1.2.1 hu1.2.2.2.2.2.2.1
              hu1.2.2.2.2.2.2.2.1 hs
          have ht1 : TraceInv evs s1 := traceInv_congr hu1.2.2.2.2.2.2.2.1 ht
          have hs2 : StateInv s2 := extend_StateInv hy hs1
          have ht2 : TraceInv evs s2 :=
            traceInv_congr (extend_ok_unchanged hy).2.2.2.2.2.2.2.2.1 ht1
          obtain ⟨hsd, htd⟩ := drain_preserves hs2 ht2
          have hdgen : (drainPendingBlocks s2).1.generation = s.generation := by
            rw [(drain_fst_fields s2).2.2.2.2.2.2.1,
              (extend_ok_unchanged hy).2.2.2.2.2.2.2.1, hu1.2.2.2.2.2.2.1]
          have hraise : StateInv { (drainPendingBlocks s2).1 with generation := gen } :=
            gen_raise_StateInv (by rw [hdgen]; exact le_of_lt hgen) hsd
          rw [← h.1, ← h.2]
          constructor
          · refine stateInv_congr ?_ ?_ ?_ ?_ hraise <;> rfl
          · refine traceInv_congr ?_ htd
            rfl
        · simp only [Except.ok.injEq, Prod.mk.injEq] at h
          rw [← h.1, ← h.2, List.append_nil]
          have hraise : StateInv { s with generation := gen } :=
            gen_raise_StateInv (le_of_lt hgen) hs
          constructor
          · refine stateInv_congr ?_ ?_ ?_ ?_ hraise <;> rfl
          · refine traceInv_congr ?_ ht
            rfl
  | setDefCap cap =>
    simp only [applyOp] at h
    obtain ⟨a, ha, hmap⟩ := except_map_ok h
    injection hmap with hm1 hm2
    rw [← hm1, ← hm2, List.append_nil]
    unfold setDefaultCapacity at ha
    split at ha
    · exact absurd ha (by simp)
    · split at ha
      · exact absurd ha (by simp)
      · have hclean : StateInv { cleanupManagedBuffers s with defaultCapacity := cap } := by
          refine stateInv_congr ?_ ?_ ?_ ?_ (stateInv_cleanup hs) <;> rfl
        refine ⟨extend_StateInv ha hclean, ?_⟩
        have htc : TraceInv evs { cleanupManagedBuffers s with defaultCapacity := cap } := by
          refine traceInv_congr ?_ ht
          rfl
        exact traceInv_congr (extend_ok_unchanged ha).2.2.2.2.2.2.2.2.1 htc
  | cleanup =>
    simp only [applyOp, Except.ok.injEq, Prod.mk.injEq] at h
    rw [← h.1, ← h.2, List.append_nil]
    refine ⟨stateInv_cleanup hs, traceInv_congr ?_ ht⟩
    rfl

theorem initState_StateInv (pid sid : Int) (cap : Nat) :
    StateInv (initState pid sid cap) := by
  refine ⟨?_, ?_, ?_, ?_, ?_, ?_, ?_, ?_, ?_, ?_, ?_⟩ <;>
    simp [initState] <;> intro c hc <;> rw [← hc]

theorem traceInv_nil (s : State) : TraceInv [] s := by
  refine ⟨List.Pairwise.nil, by simp, by simp, ?_⟩
  intro g h1 h2 hex
  obtain ⟨e, he, -⟩ := hex
  simp at he

theorem run_C3inv :
    ∀ (ops : List Op) (s : State) (acc : List Event) (s' : State) (evs : List Event),
      StateInv s → TraceInv acc s → run s ops = .ok (s', evs) →
      StateInv s' ∧ TraceInv (acc ++ evs) s' := by
  intro ops
  induction ops with
  | nil =>
    intro s acc s' evs hs ht h
    simp only [run, Except.ok.injEq, Prod.mk.injEq] at h
    rw [← h.1, ← h.2, List.append_nil]
    exact ⟨hs, ht⟩
  | cons op rest ih =>
    intro s acc s' evs hs ht h
    simp only [run] at h
    obtain ⟨r1, h1, h⟩ := except_bind_ok h
    obtain ⟨r2, h2, h⟩ := except_bind_ok h
    simp only [Except.ok.injEq, Prod.mk.injEq] at h
    obtain ⟨hinv1, htr1⟩ := applyOp_C3inv h1 hs ht
    obtain ⟨hinv2, htr2⟩ := ih r1.1 (acc ++ r1.2) r2.1 r2.2 hinv1 htr1 h2
    rw [← h.1, ← h.2, ← List.append_assoc]
    exact ⟨hinv2, htr2⟩

theorem eos_countP_le_one {evs : List Event} (h : evs.Pairwise evtOrd) (g : Int) :
    evs.countP (fun e => isEosEvt e && e.generationId == g) ≤ 1 := by
  induction evs with
  | nil => simp
  | cons a l ih =>
    rw [List.pairwise_cons] at h
    rw [List.countP_cons]
    by_cases hp : (isEosEvt a && a.generationId == g) = true
    · have h0 : l.countP (fun e => isEosEvt e && e.generationId == g) = 0 := by
        rw [List.countP_eq_zero]
        intro e he
        simp only [Bool.and_eq_true, beq_iff_eq] at hp ⊢
        intro hcon
        have hlt := (h.1 e he).1 hp.1 hcon.1
        rw [hp.2, hcon.2] at hlt
        exact lt_irrefl g hlt
      simp only [hp, if_pos, h0]
      omega
    · have := ih h.2
      simp only [hp]
      simpa using this

/-! Claim C3: generation framing. -/

/-- Claim C3 counterexample: the claim, as stated, is false at a concrete
input: empty blocks are drained and dropped silently while still advancing
prev_block_generation, so after exC3ops (set generation 5, flush twice, set
generation 7, flush twice) the very first delivery the sink ever receives
is an end-of-stream marker of generation 5 — a marker emitted before the
first block ever delivered. -/
theorem C3_counterexample :
    ¬ (∀ (pid sid : Int) (cap : Nat) (ops : List Op) (s' : State) (evs : List Event),
        run (initState pid sid cap) ops = .ok (s', evs) →
        ((∀ l1 d l2 d' l3, evs = l1 ++ d :: l2 ++ d' :: l3 →
            isDataEvt d → isDataEvt d' → (∀ e ∈ l2, ¬ isDataEvt e) →
            d.generationId ≠ d'.generationId →
            (∃ e ∈ l2, isEosEvt e ∧ e.generationId = d.generationId ∧ e.data = none) ∧
            evs.countP (fun e => isEosEvt e && e.generationId == d.generationId) = 1) ∧
         (∀ pre e post, evs = pre ++ e :: post → isEosEvt e →
            ∃ x ∈ pre, isDataEvt x))) := by
  intro h
  have h2 := (h 0 0 1024 exC3ops exC3state [exC3event] (by rfl)).2
  obtain ⟨x, hx, -⟩ := h2 [] exC3event [] rfl (by rfl)
  simp at hx

/-- Claim C3 as amended: over every operation sequence from a fresh stream,
for every generation transition observed by the sink whose prior generation
is not the sentinel, exactly one end-of-stream block of the prior
generation — tagged with the prior generation, end_of_stream true, and a
null data handle — is delivered between the last data block of the prior
generation and the first data block of the new generation; every marker the
sink receives carries a null data handle and a non-sentinel generation (no
marker is emitted while prev_block_generation is still the sentinel); and
within one drain, markers carry the stream's signature.  (Markers may
precede the first data delivery when silently dropped empty blocks have
advanced the cursor, which is what the counterexample exhibits.) -/
theorem C3_amended_generation_framing :
    ∀ (pid sid : Int) (cap : Nat) (ops : List Op) (s' : State) (evs : List Event),
      run (initState pid sid cap) ops = .ok (s', evs) →
      ((∀ l1 d l2 d' l3, evs = l1 ++ d :: l2 ++ d' :: l3 →
          isDataEvt d → isDataEvt d' → (∀ e ∈ l2, ¬ isDataEvt e) →
          d.generationId ≠ d'.generationId → INT64_MIN < d.generationId →
          (∃ e ∈ l2, isEosEvt e ∧ e.generationId = d.generationId ∧ e.data = none) ∧
          evs.countP (fun e => isEosEvt e && e.generationId == d.generationId) = 1) ∧
       (∀ e ∈ evs, isEosEvt e → e.data = none ∧ INT64_MIN < e.generationId) ∧
       (∀ s0 : State, (∀ b ∈ s0.pendingBlocks, b.endOfStream = false) →
          ∀ e ∈ (drainPendingBlocks s0).2, isEosEvt e → e.signature = s0.signature)) := by
  intro pid sid cap ops s' evs hrun
  obtain ⟨-, ht⟩ := run_C3inv ops (initState pid sid cap) [] s' evs
    (initState_StateInv pid sid cap) (traceInv_nil _) hrun
  rw [List.nil_append] at ht
  refine ⟨?_, ?_, ?_⟩
  · intro l1 d l2 d' l3 hsplit hd hd' hnod hne hmin
    have hdmem : d ∈ evs := by rw [hsplit]; simp
    have hd'mem : d' ∈ evs := by rw [hsplit]; simp
    have hord := ht.ord
    rw [hsplit, List.pairwise_append] at hord
    have hordP := hord.1
    rw [List.pairwise_append] at hordP
    have horddd' : evtOrd d d' := hord.2.2 d (by simp) d' (by simp)
    have hdlt : d.generationId < d'.generationId :=
      lt_of_le_of_ne (horddd'.2.2.2 hd hd') hne
    have hdprev : d.generationId < s'.prevBlockGeneration :=
      lt_of_lt_of_le hdlt (ht.dataFacts d' hd'mem hd').1
    obtain ⟨e, he, heos, hegen⟩ :=
      ht.eosExists d.generationId hmin hdprev ⟨d, hdmem, hd, rfl⟩
    have hedata : e.data = none := (ht.eosFacts e he heos).2.2
    have hel2 : e ∈ l2 := by
      have hemem := he
      rw [hsplit] at hemem
      simp only [List.mem_append, List.mem_cons] at hemem
      rcases hemem with (he1 | he1 | he1) | he1 | he1
      · exfalso
        have := (hordP.2.2 e he1 d (by simp)).2.1 heos hd
        rw [hegen] at this
        exact lt_irrefl _ this
      · exfalso
        rw [he1] at hedata
        rw [isDataEvt, hedata] at hd
        cases hd
      · exact he1
      · exfalso
        rw [he1] at heos
        rw [isEosEvt, (ht.dataFacts d' hd'mem hd').2] at heos
        cases heos
      · exfalso
        have hpw := hord.2.1
        rw [List.pairwise_cons] at hpw
        have := (hpw.1 e he1).2.2.1 hd' heos
        rw [hegen] at this
        exact absurd hdlt (not_lt.mpr this)
    constructor
    · exact ⟨e, hel2, heos, hegen, hedata⟩
    · have hle := eos_countP_le_one ht.ord d.generationId
      have hge : 0 < evs.countP (fun x => isEosEvt x && x.generationId == d.generationId) := by
        rw [List.countP_pos_iff]
        exact ⟨e, he, by simp [heos, hegen]⟩
      omega
  · intro e he heos
    exact ⟨(ht.eosFacts e he heos).2.2, (ht.eosFacts e he heos).2.1⟩
  · intro s0 hno e he heos
    exact drainLoop_eos_sig s0.committedUso s0.signature s0.partitionId
      s0.pendingBlocks s0.prevBlockGeneration hno e he heos

/-- Witness for claim C3 at a concrete input: the spec's generation
boundary scenario (one row at generation 5, flush, one row at generation 7,
flush) delivers data(5), eos(5), data(7); the theorem yields the eos(5)
marker strictly between the two data blocks, exactly once in the trace. -/
theorem C3_amended_generation_framing_witness :
    (∃ e ∈ [exC3eos5], isEosEvt e ∧ e.generationId = exC3data5.generationId ∧
      e.data = none) ∧
    ([exC3data5, exC3eos5, exC3data7].countP
      (fun e => isEosEvt e && e.generationId == exC3data5.generationId) = 1) := by
  have h := (C3_amended_generation_framing 0 0 1024 exC3wOps exC3wState
    [exC3data5, exC3eos5, exC3data7] (by rfl)).1
  exact h [] exC3data5 [exC3eos5] exC3data7 [] rfl (by rfl) (by rfl)
    (by decide) (by decide) (by decide)

end TupleStream
